import Mathlib

/-!
# Verification of the youtube-rubric-extractor scripts

Shallow embedding in Lean 4 of the pure data-transformation core of the
repository: `src/utils/rubric_parser.py` (JSON validation with default
filling, slug generation, chunk merging), `src/utils/youtube.py`
(`chunk_transcript`), `src/utils/llm_client.py` (provider resolution and
retry loop), and `src/extract_rubric.py` (`save_rubric`).

Python values flowing through these functions are JSON-like, so they are
modelled by the inductive `JValue` below; dicts are association lists
that keep insertion order, as CPython dicts do.  Python exceptions are
modelled by `Except PyErr`.  External effects (the `json.loads` library
call, the network request of the LLM client, the environment) enter the
model as explicit function parameters.
-/

/-- A Python value as it appears in this code base: `None`, booleans,
numbers (the benchmarks are integers), strings, lists and dicts.
Dicts keep insertion order, like CPython dicts. -/
inductive JValue where
  | null
  | bool (b : Bool)
  | num (n : Int)
  | str (s : String)
  | arr (xs : List JValue)
  | obj (kvs : List (String × JValue))

namespace JValue

mutual

def beq : JValue → JValue → Bool
  | obj f1, obj f2 => beqFields f1 f2
  | arr l1, arr l2 => beqList l1 l2
  | str u, str v => u == v
  | num u, num v => u == v
  | bool u, bool v => u == v
  | null, null => true
  | _, _ => false

def beqList : List JValue → List JValue → Bool
  | v :: tl, w :: tw => beq v w && beqList tl tw
  | [], [] => true
  | _, _ => false

def beqFields : List (String × JValue) → List (String × JValue) → Bool
  | (ka, va) :: ta, (kb, vb) :: tb => ka == kb && beq va vb && beqFields ta tb
  | [], [] => true
  | _, _ => false

end

mutual

theorem beq_iff_eq : ∀ a b : JValue, beq a b = true ↔ a = b
  | obj f1, obj f2 => by simp [beq, beqFields_iff_eq f1 f2]
  | arr l1, arr l2 => by simp [beq, beqList_iff_eq l1 l2]
  | str s1, str s2 => by simp [beq]
  | num n1, num n2 => by simp [beq]
  | bool b1, bool b2 => by simp [beq]
  | null, null => by simp [beq]
  | obj _, null | arr _, null | str _, null | num _, null
  | bool _, null => by simp [beq]
  | null, obj _ | null, arr _ | null, str _ | null, num _
  | null, bool _ => by simp [beq]
  | bool _, obj _ | bool _, arr _ | bool _, str _ | bool _, num _ => by
      simp [beq]
  | num _, obj _ | num _, arr _ | num _, str _ | num _, bool _ => by
      simp [beq]
  | str _, obj _ | str _, arr _ | str _, num _ | str _, bool _ => by
      simp [beq]
  | arr _, obj _ | arr _, str _ | arr _, num _ | arr _, bool _ => by
      simp [beq]
  | obj _, arr _ | obj _, str _ | obj _, num _ | obj _, bool _ => by
      simp [beq]

theorem beqList_iff_eq : ∀ a b : List JValue, beqList a b = true ↔ a = b
  | v :: tl, w :: tw => by
      simp [beqList, beq_iff_eq v w, beqList_iff_eq tl tw]
  | [], [] => by simp [beqList]
  | [], _ :: _ | _ :: _, [] => by simp [beqList]

theorem beqFields_iff_eq :
    ∀ a b : List (String × JValue), beqFields a b = true ↔ a = b
  | (ka, va) :: ta, (kb, vb) :: tb => by
      simp [beqFields, beq_iff_eq va vb, beqFields_iff_eq ta tb]
  | [], [] => by simp [beqFields]
  | [], _ :: _ | _ :: _, [] => by simp [beqFields]

end

instance : DecidableEq JValue := fun a b =>
  decidable_of_iff (beq a b = true) (beq_iff_eq a b)

instance : BEq JValue := ⟨beq⟩

end JValue

/-- A Python exception as raised by the modelled code paths. -/
inductive PyErr where
  | valueError (msg : String)
  | typeError (msg : String)
  | attributeError (msg : String)
  | keyError (msg : String)
deriving DecidableEq

/-- `pat` is an initial segment of the character list. -/
def startsWithChars : List Char → List Char → Bool
  | [], _ => true
  | _ :: _, [] => false
  | p :: ps, c :: cs => p = c && startsWithChars ps cs

/-- The text before and after the first occurrence of the (non-empty at
every call site) pattern `pat`, `none` when `pat` does not occur: the
primitive behind Python's substring `in` test and the leftmost `re.search`
match of a literal. -/
def splitFirst (pat : List Char) : List Char → Option (List Char × List Char)
  | [] => if pat.isEmpty then some ([], []) else none
  | c :: cs =>
      if startsWithChars pat (c :: cs) then some ([], (c :: cs).drop pat.length)
      else
        match splitFirst pat cs with
        | some (pre, post) => some (c :: pre, post)
        | none => none

namespace JValue

/-- `d[k]` lookup in a dict, first (and only, for well-formed dicts)
binding wins; CPython dicts have unique keys, and all operations below
preserve that. -/
def dget (kvs : List (String × JValue)) (k : String) : Option JValue :=
  match kvs with
  | [] => none
  | (k', v) :: rest => if k' = k then some v else dget rest k

/-- `d[k] = v`: replace the value in place if the key exists (keeping its
position, as CPython does), otherwise append the new binding. -/
def dset (kvs : List (String × JValue)) (k : String) (v : JValue) :
    List (String × JValue) :=
  match kvs with
  | [] => [(k, v)]
  | (k', v') :: rest =>
      if k' = k then (k', v) :: rest else (k', v') :: dset rest k v

/-- `k in d` for a dict. -/
def dmem (kvs : List (String × JValue)) (k : String) : Bool :=
  (dget kvs k).isSome

/-- `d.setdefault(k, v)`: insert only when the key is absent. -/
def dsetdefault (kvs : List (String × JValue)) (k : String) (v : JValue) :
    List (String × JValue) :=
  if dmem kvs k then kvs else kvs ++ [(k, v)]

/-- Python truthiness of a value: `None`, `False`, `0`, `""`, `[]` and
`\x7b\x7d` are falsy, everything else truthy. -/
def truthy : JValue → Bool
  | null => false
  | bool b => b
  | num n => n != 0
  | str s => s ≠ ""
  | arr xs => xs ≠ []
  | obj kvs => kvs ≠ []

/-- `k in x` for an arbitrary value: key membership for dicts, element
membership for lists, substring test for strings, `TypeError` otherwise.
The code only ever uses a string on the left. -/
def pyContains (x : JValue) (k : String) : Except PyErr Bool :=
  match x with
  | obj kvs => .ok (dmem kvs k)
  | arr xs => .ok (xs.any (fun v => beq v (str k)))
  | str s => .ok (splitFirst k.data s.data).isSome
  | _ => .error (.typeError "argument not iterable")

/-- `x[k]` with a string subscript: dict lookup (`KeyError` when absent),
`TypeError` on every other type. -/
def pyGetItem (x : JValue) (k : String) : Except PyErr JValue :=
  match x with
  | obj kvs =>
      match dget kvs k with
      | some v => .ok v
      | none => .error (.keyError k)
  | str _ => .error (.typeError "string indices must be integers")
  | arr _ => .error (.typeError "list indices must be integers")
  | _ => .error (.typeError "object is not subscriptable")

/-- `x[k] = v` with a string subscript: only dicts support it. -/
def pySetItem (x : JValue) (k : String) (v : JValue) : Except PyErr JValue :=
  match x with
  | obj kvs => .ok (obj (dset kvs k v))
  | str _ => .error (.typeError "str does not support item assignment")
  | arr _ => .error (.typeError "list indices must be integers")
  | _ => .error (.typeError "object does not support item assignment")

/-- `x.setdefault(k, v)` (the dict returned, the looked-up value being
discarded by all call sites): `AttributeError` on non-dicts. -/
def pySetdefault (x : JValue) (k : String) (v : JValue) : Except PyErr JValue :=
  match x with
  | obj kvs => .ok (obj (dsetdefault kvs k v))
  | _ => .error (.attributeError "object has no attribute setdefault")

/-- `x.get(k, default)`: `AttributeError` on non-dicts. -/
def pyGetD (x : JValue) (k : String) (dflt : JValue) : Except PyErr JValue :=
  match x with
  | obj kvs => .ok ((dget kvs k).getD dflt)
  | _ => .error (.attributeError "object has no attribute get")

/-- `for y in x`: the element list for lists, the one-character strings
for strings, the keys for dicts, `TypeError` for everything else. -/
def pyIter (x : JValue) : Except PyErr (List JValue) :=
  match x with
  | arr xs => .ok xs
  | str s => .ok (s.data.map (fun c => str (String.singleton c)))
  | obj kvs => .ok (kvs.map (fun kv => str kv.1))
  | _ => .error (.typeError "object is not iterable")

end JValue

/-! ## src/utils/rubric_parser.py -/

namespace RubricParser

open JValue

/-- The `required_fields` list of `_validate_rubric`. -/
def requiredFields : List String := ["title", "difficulty", "archetype"]

/-- One iteration of the `for field in required_fields` loop:
`if field not in rubric or not rubric[field]: rubric[field] = 'unknown'`.
Python evaluates the membership test first and short-circuits `or`. -/
def requiredFieldStep (r : JValue) (field : String) : Except PyErr JValue := do
  let c ← pyContains r field
  if !c then pySetItem r field (.str "unknown")
  else do
    let v ← pyGetItem r field
    if truthy v then pure r else pySetItem r field (.str "unknown")

/-- `action.setdefault('importance', 'important')` in the inner loop. -/
def validateAction (a : JValue) : Except PyErr JValue :=
  pySetdefault a "importance" (.str "important")

/-- After a `for x in container: x.setdefault(...)` loop Python has mutated
the element dicts in place, so when the container is a list its value is
the list of mutated elements; a non-list container that survives the loop
(an empty string or empty dict yields no iterations) is left unchanged. -/
def listWriteBack (holder : JValue) (k : String) (orig : JValue)
    (newItems : List JValue) : JValue :=
  match orig, holder with
  | .arr _, .obj kvs => .obj (dset kvs k (.arr newItems))
  | _, _ => holder

/-- The body of the `for phase in rubric.get('phases', [])` loop of
`_validate_rubric`: three `setdefault`s on the phase followed by the
`importance` default on each of its key actions (mutated in place, hence
the write-back when `key_actions` is a list). -/
def validatePhase (p : JValue) : Except PyErr JValue := do
  let p ← pySetdefault p "key_actions" (.arr [])
  let p ← pySetdefault p "success_criteria" (.arr [])
  let p ← pySetdefault p "common_mistakes" (.arr [])
  let ka ← pyGetD p "key_actions" (.arr [])
  let items ← pyIter ka
  let items2 ← items.mapM validateAction
  pure (listWriteBack p "key_actions" ka items2)

/-- The benchmark keys defaulted by `_validate_rubric`. -/
def benchmarkKeys : List String :=
  ["feudal_age", "castle_age", "imperial_age", "second_tc", "third_tc",
   "villagers_at_10min", "villagers_at_castle"]

/-- `_validate_rubric` up to (excluding) the `_meta` assignment:
the `required_fields` loop, the six array/dict `setdefault`s, the phase
loop, and the benchmark defaults (`rubric['benchmarks'].setdefault(key,
None)` mutates the nested dict in place, hence the write-back). -/
def validateCore (rubric : JValue) : Except PyErr JValue := do
  let r ← requiredFields.foldlM requiredFieldStep rubric
  let r ← pySetdefault r "civilizations" (.arr [])
  let r ← pySetdefault r "map_types" (.arr [.str "any"])
  let r ← pySetdefault r "phases" (.arr [])
  let r ← pySetdefault r "decision_points" (.arr [])
  let r ← pySetdefault r "counters" (.obj [])
  let r ← pySetdefault r "key_insights" (.arr [])
  let phasesVal ← pyGetD r "phases" (.arr [])
  let items ← pyIter phasesVal
  let items2 ← items.mapM validatePhase
  let r := listWriteBack r "phases" phasesVal items2
  let r ← pySetdefault r "benchmarks" (.obj [])
  let bVal ← pyGetItem r "benchmarks"
  let bVal2 ← benchmarkKeys.foldlM (fun b k => pySetdefault b k .null) bVal
  pySetItem r "benchmarks" bVal2

/-- The `_meta` dict written by `_validate_rubric`; `now` stands for
`datetime.now().isoformat()`, an input of the model. -/
def metaObj (now : String) : JValue :=
  .obj [("extracted_at", .str now), ("version", .str "1.0")]

/-- `_validate_rubric`: the defaulting core followed by the `_meta`
assignment. -/
def validateRubric (now : String) (rubric : JValue) : Except PyErr JValue := do
  let r ← validateCore rubric
  pySetItem r "_meta" (metaObj now)

/-- `sub in s` on Python strings. -/
def strContains (s pat : String) : Bool := (splitFirst pat.data s.data).isSome

/-- `re.search(opening-pattern + '(.*?)' + '\n```', content, re.DOTALL)`
followed by `content = match.group(1)`: with a leftmost-then-shortest
match, the group is the text between the first occurrence of the opening
(`'```json\n'` or `'```\n'`) and the first `'\n```'` after it; when no
such pair exists the content is left unchanged. -/
def fenceExtract (opening : String) (content : String) : String :=
  match splitFirst opening.data content.data with
  | some (_, tail) =>
      match splitFirst "\n```".data tail with
      | some (body, _) => ⟨body⟩
      | none => content
  | none => content

/-- Python's `str.strip()` whitespace class restricted to ASCII (also the
class matched by `\s` in the `re.sub` calls of `generate_rubric_id`). -/
def pyIsSpace (c : Char) : Bool :=
  c = ' ' || c = '\t' || c = '\n' || c = '\r' || c = '\x0b' || c = '\x0c'

/-- `str.strip()` on a character list. -/
def pyStripChars (l : List Char) : List Char :=
  ((l.dropWhile pyIsSpace).reverse.dropWhile pyIsSpace).reverse

/-- `str.strip()`. -/
def pyStrip (s : String) : String := ⟨pyStripChars s.data⟩

/-- The text handed to `json.loads` by `parse_rubric_json`: markdown-fence
extraction (the `'```json'` branch takes priority, and a failed search
leaves the content unchanged) followed by `strip()`. -/
def preprocess (content : String) : String :=
  let content :=
    if strContains content "```json" then fenceExtract "```json\n" content
    else if strContains content "```" then fenceExtract "```\n" content
    else content
  pyStrip content

/-- `parse_rubric_json`.  The `json.loads` library call enters the model as
the parameter `loads`, `none` standing for a `json.JSONDecodeError` (which
the function turns into a `ValueError`); `now` stands for
`datetime.now().isoformat()`. -/
def parseRubricJson (loads : String → Option JValue) (now : String)
    (content : String) : Except PyErr JValue := do
  let content := preprocess content
  match loads content with
  | none => .error (.valueError "Invalid JSON in LLM response")
  | some rubric => validateRubric now rubric

/-- `[a-zA-Z0-9]`, the characters kept (besides whitespace) by the first
`re.sub` of `generate_rubric_id`. -/
def isAsciiAlnum (c : Char) : Bool :=
  ('0' ≤ c && c ≤ '9') || ('a' ≤ c && c ≤ 'z') || ('A' ≤ c && c ≤ 'Z')

/-- `re.sub(r'\s+', '_', ·)` one character at a time: `inRun` records
whether the current maximal whitespace run has already emitted its
underscore. -/
def collapseWsAux : Bool → List Char → List Char
  | _, [] => []
  | inRun, c :: rest =>
      if pyIsSpace c then
        if inRun then collapseWsAux true rest
        else '_' :: collapseWsAux true rest
      else c :: collapseWsAux false rest

/-- `re.sub(r'\s+', '_', ·)`: replace every maximal whitespace run by a
single underscore. -/
def collapseWs (l : List Char) : List Char := collapseWsAux false l

/-- `generate_rubric_id`: lowercase the title, delete every character that
is not ASCII-alphanumeric or whitespace, strip, collapse whitespace runs
to underscores, truncate to 50 characters.  `Char.toLower` models
`str.lower` (they agree on ASCII; non-ASCII letters are deleted by the
filter either way).  The `author` argument is accepted and ignored, as in
the source. -/
def generateRubricId (title : String) (author : String) : String :=
  let lowered := title.data.map Char.toLower
  let kept := lowered.filter (fun c => isAsciiAlnum c || pyIsSpace c)
  let collapsed := collapseWs (pyStripChars kept)
  ⟨collapsed.take 50⟩

/-- Only immutable values can enter a Python `set`; the merge code puts
phase names, triggers and insights into sets. -/
def hashable : JValue → Bool
  | .arr _ => false
  | .obj _ => false
  | _ => true

/-- `v in s` for a `set` modelled as a duplicate-free-irrelevant list. -/
def setMem (s : List JValue) (v : JValue) : Except PyErr Bool :=
  if hashable v then .ok (s.any (JValue.beq v))
  else .error (.typeError "unhashable type")

/-- `s.add(v)`. -/
def setAdd (s : List JValue) (v : JValue) : Except PyErr (List JValue) :=
  if hashable v then .ok (if s.any (JValue.beq v) then s else v :: s)
  else .error (.typeError "unhashable type")

/-- `lst.append(v)`: only lists have `append`. -/
def pyAppend (x : JValue) (v : JValue) : Except PyErr JValue :=
  match x with
  | .arr xs => .ok (.arr (xs ++ [v]))
  | _ => .error (.attributeError "object has no attribute append")

/-- `d.items()`: only dicts have `items`. -/
def pyItems (x : JValue) : Except PyErr (List (String × JValue)) :=
  match x with
  | .obj kvs => .ok kvs
  | _ => .error (.attributeError "object has no attribute items")

/-- One step of the set comprehension seeding a merge-by-key pass:
look up `item[keyName]` and add it to the set. -/
def initSeenItem (keyName : String) (s : List JValue) (item : JValue) :
    Except PyErr (List JValue) := do
  let k ← pyGetItem item keyName
  setAdd s k

/-- The set comprehension seeding a merge-by-key pass, e.g.
`\x7bp['name'] for p in merged.get('phases', [])\x7d`. -/
def initSeen (field keyName : String) (merged : JValue) :
    Except PyErr (List JValue) := do
  let v ← pyGetD merged field (.arr [])
  let items ← pyIter v
  items.foldlM (initSeenItem keyName) []

/-- One later-rubric pass of a merge-by-key loop of `merge_rubrics`:
`for x in rubric.get(field, []): if x[key] not in seen:
merged[field].append(x); seen.add(x[key])`.  The `append` mutates the
list shared between `merged` and `rubrics[0]`; at the value level this is
the write-back `merged[field] = merged[field] + [x]`. -/
def mergeKeyedItem (field keyName : String) (acc : JValue × List JValue)
    (item : JValue) : Except PyErr (JValue × List JValue) := do
  let (merged, seen) := acc
  let k ← pyGetItem item keyName
  let mem ← setMem seen k
  if mem then pure (merged, seen)
  else do
    let lst ← pyGetItem merged field
    let lst2 ← pyAppend lst item
    let merged2 ← pySetItem merged field lst2
    let seen2 ← setAdd seen k
    pure (merged2, seen2)

def mergeKeyedStep (field keyName : String) (acc : JValue × List JValue)
    (rubric : JValue) : Except PyErr (JValue × List JValue) := do
  let v ← pyGetD rubric field (.arr [])
  let items ← pyIter v
  items.foldlM (mergeKeyedItem field keyName) acc

/-- One later-rubric pass of the key-insight merge loop: insights are
deduplicated by their own value rather than by a key. -/
def mergeInsightItem (acc : JValue × List JValue) (insight : JValue) :
    Except PyErr (JValue × List JValue) := do
  let (merged, seen) := acc
  let mem ← setMem seen insight
  if mem then pure (merged, seen)
  else do
    let lst ← pyGetItem merged "key_insights"
    let lst2 ← pyAppend lst insight
    let merged2 ← pySetItem merged "key_insights" lst2
    let seen2 ← setAdd seen insight
    pure (merged2, seen2)

def mergeInsightsStep (acc : JValue × List JValue) (rubric : JValue) :
    Except PyErr (JValue × List JValue) := do
  let v ← pyGetD rubric "key_insights" (.arr [])
  let items ← pyIter v
  items.foldlM mergeInsightItem acc

/-- One later-rubric pass of the benchmark update loop:
`for key, value in rubric.get('benchmarks', \x7b\x7d).items(): if value is
not None and merged.get('benchmarks', \x7b\x7d).get(key) is None:
merged['benchmarks'][key] = value` (an in-place update of the nested
dict, written back at the value level). -/
def mergeBenchItem (merged : JValue) (kv : String × JValue) :
    Except PyErr JValue := do
  if kv.2 = JValue.null then pure merged
  else do
    let mb ← pyGetD merged "benchmarks" (.obj [])
    let cur ← pyGetD mb kv.1 .null
    if cur = JValue.null then do
      let b ← pyGetItem merged "benchmarks"
      let b2 ← pySetItem b kv.1 kv.2
      pySetItem merged "benchmarks" b2
    else pure merged

def mergeBenchStep (merged : JValue) (rubric : JValue) :
    Except PyErr JValue := do
  let v ← pyGetD rubric "benchmarks" (.obj [])
  let bItems ← pyItems v
  bItems.foldlM mergeBenchItem merged

/-- `merge_rubrics`.  Besides the merged rubric the model returns the
value of the input list after the call: `merged = rubrics[0].copy()` is a
shallow copy, every later write goes through a nested list or dict shared
with `rubrics[0]` and no new top-level key is ever assigned on `merged`,
so after the call `rubrics[0]` is value-equal to the merged result; the
later rubrics are only read.  With zero or one rubric nothing is copied
or written. -/
def mergeRubrics (rubrics : List JValue) :
    Except PyErr (JValue × List JValue) :=
  match rubrics with
  | [] => .ok (.obj [], [])
  | [r] => .ok (r, [r])
  | first :: rest => do
      let merged := first
      let seenP ← initSeen "phases" "name" merged
      let (merged, _) ← rest.foldlM (mergeKeyedStep "phases" "name")
        (merged, seenP)
      let insVal ← pyGetD merged "key_insights" (.arr [])
      let insItems ← pyIter insVal
      let seenI ← insItems.foldlM setAdd []
      let (merged, _) ← rest.foldlM mergeInsightsStep (merged, seenI)
      let merged ← rest.foldlM mergeBenchStep merged
      let seenD ← initSeen "decision_points" "trigger" merged
      let (merged, _) ← rest.foldlM (mergeKeyedStep "decision_points" "trigger")
        (merged, seenD)
      .ok (merged, merged :: rest)

end RubricParser

/-! ## src/utils/youtube.py — chunk_transcript -/

namespace Youtube

open RubricParser (pyIsSpace pyStripChars)

/-- Normalise a Python slice / `str.rfind` bound over a string of length
`len`: a negative index counts from the end, and the result is clamped to
`[0, len]`. -/
def clampIdx (len : Nat) (i : Int) : Nat :=
  if i < 0 then ((len : Int) + i).toNat else min i.toNat len

/-- `s[a:b]` on a character list with Python slice semantics. -/
def pySlice (s : List Char) (a b : Int) : List Char :=
  (s.take (clampIdx s.length b)).drop (clampIdx s.length a)

/-- `s.rfind(pat, a, b)`: the greatest index `i` with `lo ≤ i`,
`i + pat.length ≤ hi` (bounds normalised as in a slice) at which `pat`
occurs in `s`, `none` when there is none (Python's `-1`). -/
def pyRfind (s pat : List Char) (a b : Int) : Option Nat :=
  let lo := clampIdx s.length a
  let hi := clampIdx s.length b
  ((List.range (s.length + 1)).filter
    (fun i => decide (lo ≤ i) && decide (i + pat.length ≤ hi) &&
      decide ((s.drop i).take pat.length = pat))).getLast?

/-- The boundary adjustment in the body of the `chunk_transcript` loop:
when the window end lies inside the transcript, move it to just after the
last newline in the final 200 characters, else to just after the last
`'. '` there, else leave it at `start + chunk_size`. -/
def adjustEnd (s : List Char) (e0 : Int) : Int :=
  if e0 < (s.length : Int) then
    match pyRfind s ['\n'] (e0 - 200) e0 with
    | some p => (p : Int) + 1
    | none =>
        match pyRfind s ['.', ' '] (e0 - 200) e0 with
        | some p => (p : Int) + 2
        | none => e0
  else e0

/-- The `while start < len(transcript)` loop of `chunk_transcript`,
returning the `(start, end)` window of each iteration; the chunk list of
the source is the stripped slice of each window (`chunkTranscript`
below).  The loop of the source has no bound of its own — the `fuel`
argument is an iteration budget, and `none` models non-termination
within that budget; `chunk_size ≥ overlap + 200` makes a budget of
`len + 1` sufficient (theorem `chunkLoop_isSome_of_ge`). -/
def chunkLoop (s : List Char) (cs ov : Int) :
    Nat → Int → Option (List (Int × Int))
  | 0, _ => none
  | fuel + 1, start =>
      if start < (s.length : Int) then
        let e := adjustEnd s (start + cs)
        match chunkLoop s cs ov fuel (e - ov) with
        | some ws => some ((start, e) :: ws)
        | none => none
      else some []

/-- `chunk_transcript(transcript, chunk_size, overlap)`: the transcript
itself when it fits in one chunk, else the stripped window slices. -/
def chunkTranscript (s : String) (cs ov : Int) : Option (List String) :=
  if (s.data.length : Int) ≤ cs then some [s]
  else
    match chunkLoop s.data cs ov (s.data.length + 1) 0 with
    | some ws => some (ws.map (fun w => ⟨pyStripChars (pySlice s.data w.1 w.2)⟩))
    | none => none

end Youtube

/-! ## src/utils/llm_client.py -/

namespace LLMClient

/-- The fields of `LLMClient` set by `_init_client`: whether `self.client`
was created, and the resolved `self.provider` and `self.model`. -/
structure State where
  clientSet : Bool
  provider : Option String
  model : Option String
deriving DecidableEq

/-- `os.getenv(name, dflt)`; the environment is the model parameter
`env`, `none` meaning the variable is unset. -/
def getenvD (env : String → Option String) (name dflt : String) : String :=
  (env name).getD dflt

/-- `LLMClient._init_client`: prefer z.ai when `AI_PROVIDER` is `'zai'`
or `'auto'` (the default) and `ZAI_API_KEY` is a non-empty string, else
fall back to OpenAI when `OPENAI_API_KEY` is non-empty, else leave the
client unconfigured.  The `OpenAI(...)` constructor performs no network
call; the model treats it as succeeding, so the `try`/`except` around it
is not a branch point. -/
def initClient (env : String → Option String) : State :=
  let openaiKey := getenvD env "OPENAI_API_KEY" ""
  let zaiKey := getenvD env "ZAI_API_KEY" ""
  let providerPref := getenvD env "AI_PROVIDER" "auto"
  if (providerPref = "zai" || providerPref = "auto") && zaiKey ≠ "" then
    { clientSet := true, provider := some "zai",
      model := some (getenvD env "AI_MODEL" "glm-4.6") }
  else if openaiKey ≠ "" then
    { clientSet := true, provider := some "openai",
      model := some (getenvD env "AI_MODEL" "gpt-4o-mini") }
  else
    { clientSet := false, provider := none, model := none }

/-- The chat-completion response as `complete` reads it: the message
content, the `reasoning_content` attribute when the message has one, and
`response.usage` when present. -/
structure APIResponse where
  content : Option String
  reasoning : Option String
  usage : Option (Nat × Nat)

/-- The error dict returned by `complete`, e.g.
`\x7b'success': False, 'error': e, 'content': None\x7d`. -/
def errorDict (e : String) : JValue :=
  .obj [("success", .bool false), ("error", .str e), ("content", .null)]

/-- The early return of `complete` when no client is configured. -/
def notConfiguredDict : JValue := errorDict "LLM not configured"

/-- The `messages` list built by `complete` as `(role, content)` pairs. -/
def buildMessages (systemPrompt : Option String) (prompt : String) :
    List (String × String) :=
  (match systemPrompt with
   | some sp => [("system", sp)]
   | none => []) ++ [("user", prompt)]

/-- `LLMClient.complete`.  The network request enters the model as the
parameter `send` (an `Except`, its `error` case standing for the
exception caught by the `try`); an unconfigured client returns the
`'LLM not configured'` dict before `send` is ever consulted. -/
def complete (st : State)
    (send : List (String × String) → Except String APIResponse)
    (prompt : String) (systemPrompt : Option String) : JValue :=
  if !st.clientSet then notConfiguredDict
  else
    match send (buildMessages systemPrompt prompt) with
    | .error e => errorDict e
    | .ok resp =>
        let content0 := resp.content
        let content :=
          if (content0.getD "") = "" && resp.reasoning.isSome then
            resp.reasoning
          else content0
        let contentV := match content with
          | some s => JValue.str s
          | none => JValue.null
        let usage := resp.usage.getD (0, 0)
        .obj [("success", .bool true), ("content", contentV),
              ("usage", .obj [("prompt_tokens", .num usage.1),
                              ("completion_tokens", .num usage.2)])]

/-- The `for attempt in range(retries + 1)` loop of
`complete_with_retry`, from a given attempt index on.  `results i` is the
dict `self.complete(...)` returns on the i-th attempt (0-based); the
second component counts how many times `complete` was invoked.  The loop
reads `result['success']` and tests its truthiness; when the last attempt
fails its result is returned. -/
def retryLoop (results : Nat → JValue) (retries : Nat) (attempt : Nat) :
    Except PyErr (JValue × Nat) := do
  let r := results attempt
  let s ← JValue.pyGetItem r "success"
  if JValue.truthy s then .ok (r, attempt + 1)
  else if h : attempt < retries then retryLoop results retries (attempt + 1)
  else .ok (r, attempt + 1)
termination_by retries + 1 - attempt
decreasing_by omega

/-- `LLMClient.complete_with_retry` with its call counter. -/
def completeWithRetry (results : Nat → JValue) (retries : Nat) :
    Except PyErr (JValue × Nat) :=
  retryLoop results retries 0

end LLMClient

/-! ## src/extract_rubric.py — save_rubric -/

namespace ExtractRubric

open JValue

/-- `str` arguments of `generate_rubric_id` must be strings: a non-string
title hits `.lower()` inside it and raises. -/
def asStr : JValue → Except PyErr String
  | .str s => .ok s
  | _ => .error (.attributeError "object has no attribute lower")

/-- `save_rubric`: generate the slug from the rubric's title (author from
`video_author` is passed along and ignored), store it under `'id'`, and
persist to `output_path` when that is given and truthy, else to
`rubric_library/<id>.json`.  The model returns the written rubric and the
file path, the actual file write being I/O. -/
def saveRubric (rubric : JValue) (outputPath : Option String) :
    Except PyErr (JValue × String) := do
  let titleV ← pyGetD rubric "title" (.str "untitled")
  let authorV ← pyGetD rubric "video_author" (.str "unknown")
  let title ← asStr titleV
  let author ← asStr authorV
  let rubricId := RubricParser.generateRubricId title author
  let rubric2 ← pySetItem rubric "id" (.str rubricId)
  let filepath :=
    match outputPath with
    | some p => if p ≠ "" then p else "rubric_library/" ++ rubricId ++ ".json"
    | none => "rubric_library/" ++ rubricId ++ ".json"
  .ok (rubric2, filepath)

end ExtractRubric

/-! ## Basic lemmas about the dict operations -/

namespace JValue

instance : LawfulBEq JValue where
  eq_of_beq h := (beq_iff_eq _ _).1 h
  rfl := (beq_iff_eq _ _).2 rfl

theorem dget_dset_self (kvs : List (String × JValue)) (k : String) (v : JValue) :
    dget (dset kvs k v) k = some v := by
  induction kvs with
  | nil => simp [dget, dset]
  | cons kv rest ih =>
      obtain ⟨k', v'⟩ := kv
      by_cases h : k' = k <;> simp [dget, dset, h, ih]

theorem dget_dset_ne (kvs : List (String × JValue)) (k k2 : String) (v : JValue)
    (h : k2 ≠ k) : dget (dset kvs k v) k2 = dget kvs k2 := by
  have h' : ¬(k = k2) := fun hh => h hh.symm
  induction kvs with
  | nil => simp [dget, dset, h']
  | cons kv rest ih =>
      obtain ⟨k', v'⟩ := kv
      by_cases h1 : k' = k
      · subst h1
        simp [dget, dset, h']
      · simp only [dset, if_neg h1, dget]
        by_cases h2 : k' = k2 <;> simp [h2, ih]

theorem dset_self (kvs : List (String × JValue)) (k : String) (v : JValue)
    (h : dget kvs k = some v) : dset kvs k v = kvs := by
  induction kvs with
  | nil => simp [dget] at h
  | cons kv rest ih =>
      obtain ⟨k', v'⟩ := kv
      by_cases h1 : k' = k
      · subst h1
        simp [dget] at h
        simp [dset, h]
      · simp [dget, h1] at h
        simp [dset, h1, ih h]

theorem dget_append_left (kvs tl : List (String × JValue)) (k : String)
    (h : (dget kvs k).isSome) : dget (kvs ++ tl) k = dget kvs k := by
  induction kvs with
  | nil => simp [dget] at h
  | cons kv rest ih =>
      obtain ⟨k', v'⟩ := kv
      by_cases h1 : k' = k
      · simp [dget, h1]
      · simp only [List.cons_append, dget, if_neg h1] at h ⊢
        exact ih h

theorem dget_append_right (kvs tl : List (String × JValue)) (k : String)
    (h : dget kvs k = none) : dget (kvs ++ tl) k = dget tl k := by
  induction kvs with
  | nil => simp
  | cons kv rest ih =>
      obtain ⟨k', v'⟩ := kv
      by_cases h1 : k' = k
      · simp [dget, h1] at h
      · simp only [dget, if_neg h1] at h
        simp only [List.cons_append, dget, if_neg h1]
        exact ih h

theorem dget_dsetdefault_mem (kvs : List (String × JValue)) (k k2 : String)
    (v : JValue) (h : dmem kvs k2) :
    dget (dsetdefault kvs k v) k2 = dget kvs k2 := by
  unfold dsetdefault
  split
  · rfl
  · exact dget_append_left kvs [(k, v)] k2 h

theorem dmem_dsetdefault_self (kvs : List (String × JValue)) (k : String)
    (v : JValue) : dmem (dsetdefault kvs k v) k := by
  unfold dsetdefault
  split
  · assumption
  · next hmem =>
      have hnone : dget kvs k = none := by
        rcases h1 : dget kvs k with _ | w
        · rfl
        · simp [dmem, h1] at hmem
      simp [dmem, dget_append_right kvs [(k, v)] k hnone, dget]

theorem dget_dsetdefault_ne (kvs : List (String × JValue)) (k k2 : String)
    (v : JValue) (h : k2 ≠ k) :
    dget (dsetdefault kvs k v) k2 = dget kvs k2 := by
  have h' : ¬(k = k2) := fun hh => h hh.symm
  unfold dsetdefault
  split
  · rfl
  · rcases h1 : dget kvs k2 with _ | w
    · rw [dget_append_right kvs [(k, v)] k2 h1]
      simp [dget, h']
    · rw [dget_append_left kvs [(k, v)] k2 (by simp [h1])]
      exact h1

theorem dsetdefault_of_mem (kvs : List (String × JValue)) (k : String)
    (v : JValue) (h : dmem kvs k) : dsetdefault kvs k v = kvs := by
  simp [dsetdefault, h]

theorem dget_dsetdefault_absent (kvs : List (String × JValue)) (k : String)
    (v : JValue) (h : dget kvs k = none) :
    dget (dsetdefault kvs k v) k = some v := by
  simp [dsetdefault, dmem, h, dget_append_right kvs [(k, v)] k h, dget]

theorem dmem_dset (kvs : List (String × JValue)) (k k2 : String) (v : JValue)
    (h : dmem kvs k2) : dmem (dset kvs k v) k2 := by
  by_cases h1 : k2 = k
  · subst h1
    simp [dmem, dget_dset_self]
  · simpa [dmem, dget_dset_ne _ _ _ _ h1] using h

theorem dmem_dsetdefault (kvs : List (String × JValue)) (k k2 : String)
    (v : JValue) (h : dmem kvs k2) : dmem (dsetdefault kvs k v) k2 := by
  by_cases h1 : k2 = k
  · subst h1
    exact dmem_dsetdefault_self kvs k2 v
  · simpa [dmem, dget_dsetdefault_ne _ _ _ _ h1] using h

end JValue

/-! ## C7 — provider resolution and the unconfigured client -/

/-- C7: when `AI_PROVIDER` is `'zai'` or `'auto'` (the default) and
`ZAI_API_KEY` is set non-empty the client resolves to provider `'zai'`;
otherwise, when `OPENAI_API_KEY` is set non-empty, it resolves to
`'openai'`; and when no provider is resolved every call to `complete`
returns `\x7b'success': False, 'error': 'LLM not configured', 'content':
None\x7d` without consulting the request function. -/
theorem c7_provider_resolution (env : String → Option String) :
    (((LLMClient.getenvD env "AI_PROVIDER" "auto" = "zai" ∨
       LLMClient.getenvD env "AI_PROVIDER" "auto" = "auto") ∧
      LLMClient.getenvD env "ZAI_API_KEY" "" ≠ "") →
      (LLMClient.initClient env).provider = some "zai") ∧
    ((¬((LLMClient.getenvD env "AI_PROVIDER" "auto" = "zai" ∨
        LLMClient.getenvD env "AI_PROVIDER" "auto" = "auto") ∧
       LLMClient.getenvD env "ZAI_API_KEY" "" ≠ "") →
      LLMClient.getenvD env "OPENAI_API_KEY" "" ≠ "" →
      (LLMClient.initClient env).provider = some "openai")) ∧
    ((LLMClient.initClient env).provider = none →
      ∀ send prompt sys,
        LLMClient.complete (LLMClient.initClient env) send prompt sys =
          JValue.obj [("success", JValue.bool false),
                      ("error", JValue.str "LLM not configured"),
                      ("content", JValue.null)]) := by
  by_cases hz : (LLMClient.getenvD env "AI_PROVIDER" "auto" = "zai" ∨
      LLMClient.getenvD env "AI_PROVIDER" "auto" = "auto") ∧
      LLMClient.getenvD env "ZAI_API_KEY" "" ≠ ""
  · have hcl : LLMClient.initClient env =
        { clientSet := true, provider := some "zai",
          model := some (LLMClient.getenvD env "AI_MODEL" "glm-4.6") } := by
      unfold LLMClient.initClient
      rw [if_pos]
      simp only [Bool.and_eq_true, Bool.or_eq_true, decide_eq_true_eq]
      exact ⟨hz.1, hz.2⟩
    refine ⟨fun _ => by rw [hcl], fun hnz _ => absurd hz hnz, fun hnone => ?_⟩
    rw [hcl] at hnone
    simp at hnone
  · by_cases ho : LLMClient.getenvD env "OPENAI_API_KEY" "" ≠ ""
    · have hcl : LLMClient.initClient env =
          { clientSet := true, provider := some "openai",
            model := some (LLMClient.getenvD env "AI_MODEL" "gpt-4o-mini") } := by
        unfold LLMClient.initClient
        rw [if_neg, if_pos]
        · simpa using ho
        · simp only [Bool.and_eq_true, Bool.or_eq_true, decide_eq_true_eq]
          exact fun hh => hz hh
      refine ⟨fun hzz => absurd hzz hz, fun _ _ => by rw [hcl], fun hnone => ?_⟩
      rw [hcl] at hnone
      simp at hnone
    · have hcl : LLMClient.initClient env =
          { clientSet := false, provider := none, model := none } := by
        unfold LLMClient.initClient
        rw [if_neg, if_neg]
        · simpa using ho
        · simp only [Bool.and_eq_true, Bool.or_eq_true, decide_eq_true_eq]
          exact fun hh => hz hh
      refine ⟨fun hzz => absurd hzz hz, fun _ hoo => absurd hoo ho,
        fun _ send prompt sys => ?_⟩
      rw [hcl]
      rfl

/-- Witness for C7 at two concrete environments: one holding only a z.ai
key (resolving to `'zai'`), and the empty environment (unconfigured, so
`complete` returns the error dict for any request function). -/
theorem c7_provider_resolution_witness :
    (LLMClient.initClient
        (fun n => if n = "ZAI_API_KEY" then some "k" else none)).provider =
      some "zai" ∧
    LLMClient.complete (LLMClient.initClient (fun _ => none))
        (fun _ => .error "unused") "p" none =
      JValue.obj [("success", JValue.bool false),
                  ("error", JValue.str "LLM not configured"),
                  ("content", JValue.null)] := by
  constructor
  · exact (c7_provider_resolution
      (fun n => if n = "ZAI_API_KEY" then some "k" else none)).1
      ⟨Or.inr (by decide), by decide⟩
  · exact (c7_provider_resolution (fun _ => none)).2.2 (by decide)
      (fun _ => .error "unused") "p" none

/-! ## C4 — complete_with_retry -/

theorem retryLoop_spec (results : Nat → JValue) (retries : Nat) :
    ∀ d a, retries - a = d → a ≤ retries →
    (∀ i, a ≤ i → i ≤ retries →
      ∃ b : Bool, JValue.pyGetItem (results i) "success" = .ok (.bool b)) →
    ∃ n, LLMClient.retryLoop results retries a = .ok (results (n - 1), n) ∧
      a + 1 ≤ n ∧ n ≤ retries + 1 ∧
      (∀ i, a ≤ i → i + 1 < n →
        JValue.pyGetItem (results i) "success" = .ok (.bool false)) ∧
      (JValue.pyGetItem (results (n - 1)) "success" = .ok (.bool true) ∨
       (n = retries + 1 ∧ ∀ i, a ≤ i → i ≤ retries →
          JValue.pyGetItem (results i) "success" = .ok (.bool false))) := by
  intro d
  induction d with
  | zero =>
      intro a hd ha hsucc
      have haeq : a = retries := by omega
      subst haeq
      obtain ⟨b, hb⟩ := hsucc a le_rfl le_rfl
      rcases b with _ | _
      · refine ⟨a + 1, ?_, by omega, by omega, ?_, ?_⟩
        · rw [LLMClient.retryLoop, hb]
          simp [JValue.truthy, Bind.bind, Except.bind]
        · intro i h1 h2
          omega
        · refine Or.inr ⟨rfl, fun i h1 h2 => ?_⟩
          have : i = a := by omega
          subst this
          simpa using hb
      · refine ⟨a + 1, ?_, by omega, by omega, fun i h1 h2 => by omega, ?_⟩
        · rw [LLMClient.retryLoop, hb]
          simp [JValue.truthy, Bind.bind, Except.bind]
        · exact Or.inl (by simpa using hb)
  | succ d ih =>
      intro a hd ha hsucc
      have halt : a < retries := by omega
      obtain ⟨b, hb⟩ := hsucc a le_rfl (by omega)
      rcases b with _ | _
      · obtain ⟨n, hrun, hn1, hn2, hfail, hlast⟩ :=
          ih (a + 1) (by omega) (by omega)
            (fun i h1 h2 => hsucc i (by omega) h2)
        refine ⟨n, ?_, by omega, hn2, ?_, ?_⟩
        · rw [LLMClient.retryLoop, hb]
          simpa [JValue.truthy, Bind.bind, Except.bind, halt] using hrun
        · intro i h1 h2
          rcases Nat.eq_or_lt_of_le h1 with h3 | h3
          · subst h3
            simpa using hb
          · exact hfail i h3 h2
        · rcases hlast with h | ⟨he, hall⟩
          · exact Or.inl h
          · refine Or.inr ⟨he, fun i h1 h2 => ?_⟩
            rcases Nat.eq_or_lt_of_le h1 with h3 | h3
            · subst h3
              simpa using hb
            · exact hall i h3 h2
      · refine ⟨a + 1, ?_, by omega, by omega, fun i h1 h2 => by omega,
          Or.inl (by simpa using hb)⟩
        rw [LLMClient.retryLoop, hb]
        simp [JValue.truthy, Bind.bind, Except.bind]

/-- C4: on a sequence of attempt results whose `'success'` field is a
boolean, `complete_with_retry` invokes `complete` at most `retries + 1`
times (the returned counter `n` is the number of invocations), returns
the result of the first attempt whose `'success'` is true — every
earlier attempt having failed — and when every attempt fails returns the
result of the final attempt (`n = retries + 1`). -/
theorem c4_complete_with_retry (results : Nat → JValue) (retries : Nat)
    (hsucc : ∀ i, i ≤ retries →
      ∃ b : Bool, JValue.pyGetItem (results i) "success" = .ok (.bool b)) :
    ∃ n, LLMClient.completeWithRetry results retries =
        .ok (results (n - 1), n) ∧
      1 ≤ n ∧ n ≤ retries + 1 ∧
      (∀ i, i + 1 < n →
        JValue.pyGetItem (results i) "success" = .ok (.bool false)) ∧
      (JValue.pyGetItem (results (n - 1)) "success" = .ok (.bool true) ∨
       (n = retries + 1 ∧ ∀ i, i ≤ retries →
          JValue.pyGetItem (results i) "success" = .ok (.bool false))) := by
  obtain ⟨n, hrun, hn1, hn2, hfail, hlast⟩ :=
    retryLoop_spec results retries retries 0 (by omega) (by omega)
      (fun i _ h2 => hsucc i h2)
  refine ⟨n, hrun, hn1, hn2, fun i h => hfail i (by omega) h, ?_⟩
  rcases hlast with h | ⟨he, hall⟩
  · exact Or.inl h
  · exact Or.inr ⟨he, fun i h2 => hall i (by omega) h2⟩

/-- The attempt results used by the C4 witness: failure, then success,
then failure. -/
def c4Results : Nat → JValue := fun i =>
  if i = 1 then
    JValue.obj [("success", JValue.bool true), ("content", JValue.str "ok")]
  else LLMClient.errorDict "boom"

/-- Witness for C4 at `retries = 2` (the default) with a success on the
second attempt. -/
theorem c4_complete_with_retry_witness :
    (∀ i, i ≤ 2 → ∃ b : Bool,
      JValue.pyGetItem (c4Results i) "success" = .ok (.bool b)) ∧
    ∃ n, LLMClient.completeWithRetry c4Results 2 =
        .ok (c4Results (n - 1), n) ∧
      1 ≤ n ∧ n ≤ 2 + 1 ∧
      (∀ i, i + 1 < n →
        JValue.pyGetItem (c4Results i) "success" = .ok (.bool false)) ∧
      (JValue.pyGetItem (c4Results (n - 1)) "success" = .ok (.bool true) ∨
       (n = 2 + 1 ∧ ∀ i, i ≤ 2 →
          JValue.pyGetItem (c4Results i) "success" = .ok (.bool false))) := by
  have hsucc : ∀ i, i ≤ 2 → ∃ b : Bool,
      JValue.pyGetItem (c4Results i) "success" = .ok (.bool b) := by
    intro i hi
    interval_cases i
    · exact ⟨false, rfl⟩
    · exact ⟨true, rfl⟩
    · exact ⟨false, rfl⟩
  exact ⟨hsucc, c4_complete_with_retry c4Results 2 hsucc⟩

/-! ## C8 — generate_rubric_id and save_rubric -/

theorem char_ofNat_toNat (n : Nat) (h : n.isValidChar) :
    (Char.ofNat n).toNat = n := by
  simp [Char.ofNat, h, Char.ofNatAux, Char.toNat]
  rfl

theorem char_le_iff (c d : Char) : c ≤ d ↔ c.toNat ≤ d.toNat := by
  rw [Char.le_def]
  exact ⟨fun h => h, fun h => h⟩

theorem toLower_toNat (c : Char) :
    (Char.toLower c).toNat =
      if 65 ≤ c.toNat ∧ c.toNat ≤ 90 then c.toNat + 32 else c.toNat := by
  simp only [Char.toLower, ge_iff_le]
  split
  · next h => exact char_ofNat_toNat _ (Or.inl (by omega))
  · rfl

theorem isLower_iff (c : Char) :
    c.isLower = true ↔ 97 ≤ c.toNat ∧ c.toNat ≤ 122 := by
  unfold Char.isLower
  simp only [Bool.and_eq_true, decide_eq_true_eq, ge_iff_le]
  exact ⟨fun h => ⟨h.1, h.2⟩, fun h => ⟨h.1, h.2⟩⟩

theorem isDigit_iff (c : Char) :
    c.isDigit = true ↔ 48 ≤ c.toNat ∧ c.toNat ≤ 57 := by
  unfold Char.isDigit
  simp only [Bool.and_eq_true, decide_eq_true_eq, ge_iff_le]
  exact ⟨fun h => ⟨h.1, h.2⟩, fun h => ⟨h.1, h.2⟩⟩

/-- A character produced by `Char.toLower` is never an ASCII uppercase
letter, so the alphanumeric characters surviving the slug filter are
lowercase letters and digits. -/
theorem toLower_alnum_class (c : Char)
    (h : RubricParser.isAsciiAlnum (Char.toLower c) = true) :
    (Char.toLower c).isLower = true ∨ (Char.toLower c).isDigit = true := by
  have ht := toLower_toNat c
  unfold RubricParser.isAsciiAlnum at h
  simp only [Bool.or_eq_true, Bool.and_eq_true, decide_eq_true_eq,
    char_le_iff] at h
  obtain ⟨ha, hz, hA, hZ, h0, h9⟩ :
      ('a' : Char).toNat = 97 ∧ ('z' : Char).toNat = 122 ∧
      ('A' : Char).toNat = 65 ∧ ('Z' : Char).toNat = 90 ∧
      ('0' : Char).toNat = 48 ∧ ('9' : Char).toNat = 57 :=
    ⟨rfl, rfl, rfl, rfl, rfl, rfl⟩
  rw [ha, hz, hA, hZ, h0, h9] at h
  rw [isLower_iff, isDigit_iff]
  split at ht <;> omega

theorem mem_pyStripChars (l : List Char) (c : Char)
    (h : c ∈ RubricParser.pyStripChars l) : c ∈ l := by
  unfold RubricParser.pyStripChars at h
  rw [List.mem_reverse] at h
  have h1 := (List.dropWhile_sublist RubricParser.pyIsSpace).subset h
  rw [List.mem_reverse] at h1
  exact (List.dropWhile_sublist RubricParser.pyIsSpace).subset h1

theorem mem_collapseWsAux (l : List Char) :
    ∀ (b : Bool) (c : Char), c ∈ RubricParser.collapseWsAux b l →
      c = '_' ∨ (c ∈ l ∧ RubricParser.pyIsSpace c = false) := by
  induction l with
  | nil => intro b c h; simp [RubricParser.collapseWsAux] at h
  | cons d rest ih =>
      intro b c h
      rw [RubricParser.collapseWsAux] at h
      by_cases hsp : RubricParser.pyIsSpace d = true
      · rw [if_pos hsp] at h
        have hrest : c ∈ RubricParser.collapseWsAux true rest ∨ c = '_' := by
          rcases b with _ | _
          · simp only [Bool.false_eq_true, if_false] at h
            rcases List.mem_cons.1 h with h1 | h1
            · exact Or.inr h1
            · exact Or.inl h1
          · exact Or.inl (by simpa using h)
        rcases hrest with h1 | h1
        · rcases ih true c h1 with h2 | ⟨h2, h3⟩
          · exact Or.inl h2
          · exact Or.inr ⟨List.mem_cons_of_mem d h2, h3⟩
        · exact Or.inl h1
      · rw [if_neg hsp] at h
        rcases List.mem_cons.1 h with h1 | h1
        · subst h1
          exact Or.inr ⟨List.mem_cons_self _ _, by simpa using hsp⟩
        · rcases ih false c h1 with h2 | ⟨h2, h3⟩
          · exact Or.inl h2
          · exact Or.inr ⟨List.mem_cons_of_mem d h2, h3⟩

theorem mem_collapseWs (l : List Char) (c : Char)
    (h : c ∈ RubricParser.collapseWs l) :
    c = '_' ∨ (c ∈ l ∧ RubricParser.pyIsSpace c = false) :=
  mem_collapseWsAux l false c h

/-- The slug construction exactly as claim C8 words it: lowercase the
title, delete every character that is not (ASCII-)alphanumeric or
whitespace, and replace each whitespace run with a single underscore —
with no stripping step. -/
def claimSlugC8 (title : String) : String :=
  ⟨RubricParser.collapseWs ((title.data.map Char.toLower).filter
    (fun c => RubricParser.isAsciiAlnum c || RubricParser.pyIsSpace c))⟩

/-- The slug construction as amended: the source strips the kept
characters before collapsing whitespace runs, and truncates to 50. -/
def amendedSlugC8 (title : String) : String :=
  ⟨(RubricParser.collapseWs (RubricParser.pyStripChars
      ((title.data.map Char.toLower).filter
        (fun c => RubricParser.isAsciiAlnum c || RubricParser.pyIsSpace c)))).take 50⟩

/-- Counterexample to C8 as stated: on the title `" a "` the source slug
is `"a"`, while the claim's described construction (which never strips
the leading/trailing whitespace) yields `"_a_"`. -/
theorem c8_claim_counterexample :
    RubricParser.generateRubricId " a " "unknown" = "a" ∧
    claimSlugC8 " a " = "_a_" ∧
    RubricParser.generateRubricId " a " "unknown" ≠ claimSlugC8 " a " :=
  ⟨rfl, rfl, by decide⟩

/-- C8 amended: `generate_rubric_id` equals the claimed construction with
a `strip()` inserted before the whitespace collapse and a truncation to
50 characters; its output uses only underscores, lowercase ASCII letters
and digits, has length at most 50, and ignores the author; `save_rubric`
with no explicit output path persists to `rubric_library/<slug>.json` and
stores the slug under `'id'`. -/
theorem c8_slug_and_save :
    (∀ title author : String,
      (∀ c ∈ (RubricParser.generateRubricId title author).data,
        c = '_' ∨ c.isLower = true ∨ c.isDigit = true) ∧
      (RubricParser.generateRubricId title author).length ≤ 50 ∧
      RubricParser.generateRubricId title author = amendedSlugC8 title ∧
      (∀ author2 : String, RubricParser.generateRubricId title author2 =
        RubricParser.generateRubricId title author)) ∧
    (∀ (kvs : List (String × JValue)) (t au : String),
      JValue.dget kvs "title" = some (.str t) →
      JValue.dget kvs "video_author" = some (.str au) →
      ExtractRubric.saveRubric (.obj kvs) none =
        .ok (.obj (JValue.dset kvs "id"
              (.str (RubricParser.generateRubricId t au))),
          "rubric_library/" ++ RubricParser.generateRubricId t au ++ ".json")) := by
  constructor
  · intro title author
    refine ⟨?_, ?_, rfl, fun author2 => rfl⟩
    · intro c hc
      have hc' : c ∈ (RubricParser.collapseWs (RubricParser.pyStripChars
          ((title.data.map Char.toLower).filter
            (fun c => RubricParser.isAsciiAlnum c ||
              RubricParser.pyIsSpace c)))).take 50 := hc
      have hc2 := List.mem_of_mem_take hc'
      rcases mem_collapseWs _ _ hc2 with h1 | ⟨h1, h2⟩
      · exact Or.inl h1
      · have h3 := mem_pyStripChars _ _ h1
        rw [List.mem_filter] at h3
        obtain ⟨hmem, hcls⟩ := h3
        rw [Bool.or_eq_true] at hcls
        rcases hcls with hcls | hcls
        · obtain ⟨c0, _, hc0⟩ := List.mem_map.1 hmem
          subst hc0
          exact Or.inr (toLower_alnum_class c0 hcls)
        · rw [hcls] at h2
          exact absurd h2 (by simp)
    · show ((RubricParser.collapseWs _).take 50).length ≤ 50
      rw [List.length_take]
      omega
  · intro kvs t au h1 h2
    simp [ExtractRubric.saveRubric, JValue.pyGetD, h1, h2,
      ExtractRubric.asStr, JValue.pySetItem, Bind.bind, Except.bind]

/-- Witness for C8's amended theorem at a concrete title and rubric. -/
theorem c8_slug_and_save_witness :
    (∀ c ∈ (RubricParser.generateRubricId "Fast Castle!" "x").data,
      c = '_' ∨ c.isLower = true ∨ c.isDigit = true) ∧
    JValue.dget [("title", JValue.str "T"), ("video_author", JValue.str "x")]
        "title" = some (.str "T") ∧
    ExtractRubric.saveRubric
        (JValue.obj [("title", JValue.str "T"),
                     ("video_author", JValue.str "x")]) none =
      .ok (JValue.obj [("title", JValue.str "T"),
                       ("video_author", JValue.str "x"),
                       ("id", JValue.str "t")],
        "rubric_library/t.json") :=
  ⟨(c8_slug_and_save.1 "Fast Castle!" "x").1, rfl,
    (c8_slug_and_save.2
      [("title", JValue.str "T"), ("video_author", JValue.str "x")]
      "T" "x" rfl rfl).trans rfl⟩

/-! ## C10 — what merge_rubrics does to its inputs -/

/-- Destructing a successful `Except` bind. -/
theorem pybind_ok {α β : Type} {x : Except PyErr α} {f : α → Except PyErr β}
    {b : β} (h : x >>= f = .ok b) : ∃ a, x = .ok a ∧ f a = .ok b := by
  cases x with
  | ok a => exact ⟨a, rfl, by simpa [Bind.bind, Except.bind] using h⟩
  | error e => simp [Bind.bind, Except.bind] at h

/-- A sample phase used by the merge counterexamples. -/
def phA : JValue := .obj [("name", .str "opening")]

/-- A second sample phase. -/
def phB : JValue := .obj [("name", .str "midgame")]

/-- First sample rubric: one phase, empty insights/benchmarks/decision
points. -/
def r1c10 : JValue := .obj [("phases", .arr [phA]), ("key_insights", .arr []),
  ("benchmarks", .obj []), ("decision_points", .arr [])]

/-- Second sample rubric, carrying a phase the first one lacks. -/
def r2c10 : JValue := .obj [("phases", .arr [phB]), ("key_insights", .arr []),
  ("benchmarks", .obj []), ("decision_points", .arr [])]

/-- The merged result of `r1c10` and `r2c10`. -/
def mC10 : JValue := .obj [("phases", .arr [phA, phB]), ("key_insights", .arr []),
  ("benchmarks", .obj []), ("decision_points", .arr [])]

/-- Counterexample to C10 as stated: merging `[r1c10, r2c10]` appends
`r2c10`'s phase to the list object shared with `r1c10`, so after the
call the first input's `'phases'` differs from its value before the
call. -/
theorem c10_claim_counterexample :
    RubricParser.mergeRubrics [r1c10, r2c10] = .ok (mC10, [mC10, r2c10]) ∧
    JValue.pyGetItem r1c10 "phases" = .ok (.arr [phA]) ∧
    JValue.pyGetItem mC10 "phases" = .ok (.arr [phA, phB]) ∧
    JValue.arr [phA] ≠ JValue.arr [phA, phB] :=
  ⟨rfl, rfl, rfl, by decide⟩

/-- C10 amended: `merge_rubrics` leaves every rubric after the first
unchanged; on a list of two or more rubrics the first rubric is mutated
in place (through the lists and dict its shallow copy shares with it) and
after the call is value-equal to the returned merged rubric, while lists
of at most one rubric are left untouched. -/
theorem c10_merge_mutation (rubrics : List JValue) (m : JValue)
    (post : List JValue)
    (h : RubricParser.mergeRubrics rubrics = .ok (m, post)) :
    post.tail = rubrics.tail ∧
    (rubrics.length ≤ 1 → post = rubrics) ∧
    (2 ≤ rubrics.length → post = m :: rubrics.tail) := by
  match rubrics with
  | [] =>
      simp only [RubricParser.mergeRubrics, Except.ok.injEq, Prod.mk.injEq] at h
      obtain ⟨_, h2⟩ := h
      subst h2
      exact ⟨rfl, fun _ => rfl, fun h2 => by simp at h2⟩
  | [r] =>
      simp only [RubricParser.mergeRubrics, Except.ok.injEq, Prod.mk.injEq] at h
      obtain ⟨h1, h2⟩ := h
      subst h1
      subst h2
      exact ⟨rfl, fun _ => rfl, fun h2 => by simp at h2⟩
  | a :: b :: rest =>
      simp only [RubricParser.mergeRubrics] at h
      obtain ⟨s1, h1, h⟩ := pybind_ok h
      obtain ⟨p1, h2, h⟩ := pybind_ok h
      obtain ⟨m1, seen1⟩ := p1
      obtain ⟨v1, h3, h⟩ := pybind_ok h
      obtain ⟨l1, h4, h⟩ := pybind_ok h
      obtain ⟨s2, h5, h⟩ := pybind_ok h
      obtain ⟨p2, h6, h⟩ := pybind_ok h
      obtain ⟨m2, seen2⟩ := p2
      obtain ⟨m3, h7, h⟩ := pybind_ok h
      obtain ⟨s3, h8, h⟩ := pybind_ok h
      obtain ⟨p3, h9, h⟩ := pybind_ok h
      obtain ⟨m4, seen3⟩ := p3
      simp only [Except.ok.injEq, Prod.mk.injEq] at h
      obtain ⟨hm, hpost⟩ := h
      subst hm
      subst hpost
      exact ⟨rfl, fun hlen => by simp at hlen, fun _ => rfl⟩

/-- Witness for the amended C10 at the concrete pair of rubrics. -/
theorem c10_merge_mutation_witness :
    RubricParser.mergeRubrics [r1c10, r2c10] = .ok (mC10, [mC10, r2c10]) ∧
    ([mC10, r2c10].tail = [r1c10, r2c10].tail ∧
      ([r1c10, r2c10].length ≤ 1 → [mC10, r2c10] = [r1c10, r2c10]) ∧
      (2 ≤ [r1c10, r2c10].length →
        [mC10, r2c10] = mC10 :: [r1c10, r2c10].tail)) :=
  ⟨rfl, c10_merge_mutation [r1c10, r2c10] mC10 [mC10, r2c10] rfl⟩

/-! ## C1 — merge_rubrics characterisation -/

/-- The key under which a dict item is deduplicated (`item[key]`). -/
def keyOf (key : String) : JValue → Option JValue
  | .obj kvs => JValue.dget kvs key
  | _ => none

/-- The key values of a list of items. -/
def itemKeys (key : String) (items : List JValue) : List JValue :=
  items.filterMap (keyOf key)

/-- Deduplication by `item[key]` keeping the first occurrence, as claim C1
words it, relative to an already-seen set of key values. -/
def dedupKeyedAux (key : String) (seen : List JValue) :
    List JValue → List JValue
  | [] => []
  | it :: rest =>
      match keyOf key it with
      | some k =>
          if seen.any (JValue.beq k) then dedupKeyedAux key seen rest
          else it :: dedupKeyedAux key (k :: seen) rest
      | none => it :: dedupKeyedAux key seen rest

/-- The seen set left behind by `dedupKeyedAux`. -/
def dedupSeen (key : String) (seen : List JValue) :
    List JValue → List JValue
  | [] => seen
  | it :: rest =>
      match keyOf key it with
      | some k =>
          if seen.any (JValue.beq k) then dedupSeen key seen rest
          else dedupSeen key (k :: seen) rest
      | none => dedupSeen key seen rest

/-- Deduplication by `item[key]` keeping the first occurrence. -/
def dedupKeyedSpec (key : String) (items : List JValue) : List JValue :=
  dedupKeyedAux key [] items

/-- Deduplication by value keeping the first occurrence, relative to an
already-seen set. -/
def dedupValsAux (seen : List JValue) : List JValue → List JValue
  | [] => []
  | it :: rest =>
      if seen.any (JValue.beq it) then dedupValsAux seen rest
      else it :: dedupValsAux (it :: seen) rest

/-- The seen set left behind by `dedupValsAux`. -/
def dedupValsSeen (seen : List JValue) : List JValue → List JValue
  | [] => seen
  | it :: rest =>
      if seen.any (JValue.beq it) then dedupValsSeen seen rest
      else dedupValsSeen (it :: seen) rest

/-- Deduplication by value keeping the first occurrence. -/
def dedupValsSpec (items : List JValue) : List JValue :=
  dedupValsAux [] items

/-- The list stored under `field` of a rubric (empty when missing or not
a list, which well-formedness rules out). -/
def rubricItems (field : String) : JValue → List JValue
  | .obj kvs =>
      match JValue.dget kvs field with
      | some (.arr xs) => xs
      | _ => []
  | _ => []

/-- All `field` items of a rubric list, in input order. -/
def allItems (field : String) (rs : List JValue) : List JValue :=
  (rs.map (rubricItems field)).flatten

/-- A rubric's benchmark entry at `k`. -/
def benchAt (r : JValue) (k : String) : Option JValue :=
  match r with
  | .obj kvs =>
      match JValue.dget kvs "benchmarks" with
      | some (.obj bkvs) => JValue.dget bkvs k
      | _ => none
  | _ => none

/-- The first benchmark value for `k` that is not `None` among a rubric
list scanned left to right, as claim C1 words it. -/
def firstNonNullAt (k : String) : List JValue → Option JValue
  | [] => none
  | r :: rest =>
      match benchAt r k with
      | some v => if v = JValue.null then firstNonNullAt k rest else some v
      | none => firstNonNullAt k rest

/-- Well-formedness of a keyed item list as the merge code requires it:
each item is a dict carrying a hashable value under `key`. -/
def wfItem (key : String) : JValue → Bool
  | .obj kvs =>
      match JValue.dget kvs key with
      | some k => RubricParser.hashable k
      | none => false
  | _ => false

/-- Well-formedness of a rubric for `merge_rubrics`: a dict whose
`phases` and `decision_points` are lists of dicts with hashable `name`
resp. `trigger` values, whose `key_insights` is a list of hashable
values, and whose `benchmarks` is a dict (with the distinct keys every
dict produced by `json.loads` has). -/
def wfRubric : JValue → Bool
  | .obj kvs =>
      (match JValue.dget kvs "phases" with
       | some (.arr xs) => xs.all (wfItem "name")
       | _ => false) &&
      (match JValue.dget kvs "key_insights" with
       | some (.arr ins) => ins.all RubricParser.hashable
       | _ => false) &&
      (match JValue.dget kvs "benchmarks" with
       | some (.obj bkvs) => decide (bkvs.map Prod.fst).Nodup
       | _ => false) &&
      (match JValue.dget kvs "decision_points" with
       | some (.arr xs) => xs.all (wfItem "trigger")
       | _ => false)
  | _ => false

/-- First rubric of the C1 counterexample: its `phases` list carries the
same phase name twice. -/
def rAc1 : JValue := .obj [("phases", .arr [phA, phA]),
  ("key_insights", .arr []), ("benchmarks", .obj []),
  ("decision_points", .arr [])]

/-- Second rubric of the C1 counterexample, with no phases of its own. -/
def rBc1 : JValue := .obj [("phases", .arr []), ("key_insights", .arr []),
  ("benchmarks", .obj []), ("decision_points", .arr [])]

/-- Counterexample to C1 as stated: with two rubrics whose first carries
a duplicated phase name, the merged `phases` keeps both copies, while the
claimed dedup-by-name-keeping-first of all input phases keeps one. -/
theorem c1_claim_counterexample :
    RubricParser.mergeRubrics [rAc1, rBc1] = .ok (rAc1, [rAc1, rBc1]) ∧
    JValue.pyGetItem rAc1 "phases" = .ok (.arr [phA, phA]) ∧
    allItems "phases" [rAc1, rBc1] = [phA, phA] ∧
    dedupKeyedSpec "name" (allItems "phases" [rAc1, rBc1]) = [phA] ∧
    JValue.arr [phA, phA] ≠ JValue.arr [phA] :=
  ⟨rfl, rfl, rfl, rfl, by decide⟩

theorem any_beq_iff (s : List JValue) (v : JValue) :
    s.any (JValue.beq v) = true ↔ v ∈ s := by
  simp only [List.any_eq_true]
  constructor
  · rintro ⟨x, hx, hbeq⟩
    rwa [(JValue.beq_iff_eq v x).1 hbeq]
  · intro h
    exact ⟨v, h, (JValue.beq_iff_eq v v).2 rfl⟩

theorem any_beq_eq_false_iff (s : List JValue) (v : JValue) :
    s.any (JValue.beq v) = false ↔ v ∉ s := by
  constructor
  · intro hf hmem
    rw [(any_beq_iff s v).2 hmem] at hf
    simp at hf
  · intro hnm
    rcases hx : s.any (JValue.beq v) with _ | _
    · rfl
    · exact absurd ((any_beq_iff s v).1 hx) hnm

theorem dset_dset (kvs : List (String × JValue)) (k : String) (v w : JValue) :
    JValue.dset (JValue.dset kvs k v) k w = JValue.dset kvs k w := by
  induction kvs with
  | nil => simp [JValue.dset]
  | cons kv rest ih =>
      obtain ⟨k', v'⟩ := kv
      by_cases h : k' = k <;> simp [JValue.dset, h, ih]

theorem dedupKeyedAux_cons_some (key : String) (s : List JValue)
    (it : JValue) (rest : List JValue) (k : JValue)
    (hk : keyOf key it = some k) :
    dedupKeyedAux key s (it :: rest) =
      if s.any (JValue.beq k) then dedupKeyedAux key s rest
      else it :: dedupKeyedAux key (k :: s) rest := by
  rw [dedupKeyedAux, hk]

theorem dedupKeyedAux_cons_none (key : String) (s : List JValue)
    (it : JValue) (rest : List JValue) (hk : keyOf key it = none) :
    dedupKeyedAux key s (it :: rest) = it :: dedupKeyedAux key s rest := by
  rw [dedupKeyedAux, hk]

theorem dedupSeen_cons_some (key : String) (s : List JValue)
    (it : JValue) (rest : List JValue) (k : JValue)
    (hk : keyOf key it = some k) :
    dedupSeen key s (it :: rest) =
      if s.any (JValue.beq k) then dedupSeen key s rest
      else dedupSeen key (k :: s) rest := by
  rw [dedupSeen, hk]

theorem dedupSeen_cons_none (key : String) (s : List JValue)
    (it : JValue) (rest : List JValue) (hk : keyOf key it = none) :
    dedupSeen key s (it :: rest) = dedupSeen key s rest := by
  rw [dedupSeen, hk]

theorem dedupKeyedAux_congr (key : String) :
    ∀ (items : List JValue) (s1 s2 : List JValue),
      (∀ v, v ∈ s1 ↔ v ∈ s2) →
      dedupKeyedAux key s1 items = dedupKeyedAux key s2 items := by
  intro items
  induction items with
  | nil => intro s1 s2 _; rfl
  | cons it rest ih =>
      intro s1 s2 h
      rcases hk : keyOf key it with _ | k
      · rw [dedupKeyedAux_cons_none key s1 it rest hk,
          dedupKeyedAux_cons_none key s2 it rest hk, ih s1 s2 h]
      · rw [dedupKeyedAux_cons_some key s1 it rest k hk,
          dedupKeyedAux_cons_some key s2 it rest k hk]
        by_cases hin : k ∈ s1
        · rw [(any_beq_iff s1 k).2 hin, (any_beq_iff s2 k).2 ((h k).1 hin)]
          simp only [if_true]
          exact ih s1 s2 h
        · rw [(any_beq_eq_false_iff s1 k).2 hin,
            (any_beq_eq_false_iff s2 k).2 (fun hh => hin ((h k).2 hh))]
          simp only [Bool.false_eq_true, if_false]
          rw [ih (k :: s1) (k :: s2) (by intro v; simp [h v])]

theorem dedupSeen_mem (key : String) :
    ∀ (items : List JValue) (s : List JValue) (v : JValue),
      v ∈ dedupSeen key s items ↔ v ∈ s ∨ v ∈ itemKeys key items := by
  intro items
  induction items with
  | nil => intro s v; simp [dedupSeen, itemKeys]
  | cons it rest ih =>
      intro s v
      rcases hk : keyOf key it with _ | k
      · rw [dedupSeen_cons_none key s it rest hk, ih s v]
        simp [itemKeys, List.filterMap_cons, hk]
      · rw [dedupSeen_cons_some key s it rest k hk]
        simp only [itemKeys, List.filterMap_cons, hk]
        by_cases hin : k ∈ s
        · rw [(any_beq_iff s k).2 hin]
          simp only [if_true]
          rw [ih s v]
          simp only [List.mem_cons]
          constructor
          · rintro (h2 | h2)
            · exact Or.inl h2
            · exact Or.inr (Or.inr (by simpa [itemKeys] using h2))
          · rintro (h2 | h2 | h2)
            · exact Or.inl h2
            · subst h2
              exact Or.inl hin
            · exact Or.inr (by simpa [itemKeys] using h2)
        · rw [(any_beq_eq_false_iff s k).2 hin]
          simp only [Bool.false_eq_true, if_false]
          rw [ih (k :: s) v]
          simp only [List.mem_cons]
          constructor
          · rintro (⟨h2 | h2⟩ | h2)
            · exact Or.inr (Or.inl h2)
            · exact Or.inl h2
            · exact Or.inr (Or.inr (by simpa [itemKeys] using h2))
          · rintro (h2 | h2 | h2)
            · exact Or.inl (Or.inr h2)
            · exact Or.inl (Or.inl h2)
            · exact Or.inr (by simpa [itemKeys] using h2)

theorem dedupKeyedAux_append (key : String) :
    ∀ (xs ys : List JValue) (s : List JValue),
      dedupKeyedAux key s (xs ++ ys) =
        dedupKeyedAux key s xs ++ dedupKeyedAux key (dedupSeen key s xs) ys := by
  intro xs
  induction xs with
  | nil => intro ys s; simp [dedupKeyedAux, dedupSeen]
  | cons it rest ih =>
      intro ys s
      simp only [List.cons_append]
      rcases hk : keyOf key it with _ | k
      · rw [dedupKeyedAux_cons_none key s it (rest ++ ys) hk,
          dedupKeyedAux_cons_none key s it rest hk,
          dedupSeen_cons_none key s it rest hk, ih ys s]
        simp
      · rw [dedupKeyedAux_cons_some key s it (rest ++ ys) k hk,
          dedupKeyedAux_cons_some key s it rest k hk,
          dedupSeen_cons_some key s it rest k hk]
        rcases h1 : s.any (JValue.beq k) with _ | _
        · simp only [Bool.false_eq_true, if_false, List.cons_append]
          rw [ih ys (k :: s)]
        · simp only [if_true]
          exact ih ys s

theorem dedupKeyedAux_id (key : String) :
    ∀ (xs : List JValue) (s : List JValue),
      (∀ it ∈ xs, wfItem key it = true) →
      (itemKeys key xs).Nodup →
      (∀ k ∈ itemKeys key xs, k ∉ s) →
      dedupKeyedAux key s xs = xs := by
  intro xs
  induction xs with
  | nil => intro s _ _ _; rfl
  | cons it rest ih =>
      intro s hwf hnd hdisj
      have hwfit := hwf it (List.mem_cons_self _ _)
      have hksome : ∃ k, keyOf key it = some k ∧
          RubricParser.hashable k = true := by
        rcases it with _ | _ | _ | _ | _ | kvs <;> simp [wfItem] at hwfit
        rcases hk : JValue.dget kvs key with _ | k
        · rw [hk] at hwfit
          simp at hwfit
        · rw [hk] at hwfit
          exact ⟨k, by simp [keyOf, hk], hwfit⟩
      obtain ⟨k, hk, _⟩ := hksome
      have hkeys : itemKeys key (it :: rest) = k :: itemKeys key rest := by
        simp [itemKeys, List.filterMap_cons, hk]
      rw [hkeys] at hnd hdisj
      have hknotin : k ∉ s := hdisj k (List.mem_cons_self _ _)
      rw [dedupKeyedAux_cons_some key s it rest k hk,
        (any_beq_eq_false_iff s k).2 hknotin]
      simp only [Bool.false_eq_true, if_false, List.cons.injEq, true_and]
      refine ih (k :: s) (fun x hx => hwf x (List.mem_cons_of_mem _ hx))
        (List.Nodup.of_cons hnd) ?_
      intro k2 hk2
      simp only [List.mem_cons]
      rintro (h3 | h3)
      · subst h3
        exact (List.nodup_cons.1 hnd).1 hk2
      · exact hdisj k2 (List.mem_cons_of_mem _ hk2) h3

theorem dedupValsAux_congr :
    ∀ (items : List JValue) (s1 s2 : List JValue),
      (∀ v, v ∈ s1 ↔ v ∈ s2) →
      dedupValsAux s1 items = dedupValsAux s2 items := by
  intro items
  induction items with
  | nil => intro s1 s2 _; rfl
  | cons it rest ih =>
      intro s1 s2 h
      rw [dedupValsAux, dedupValsAux]
      by_cases hin : it ∈ s1
      · rw [(any_beq_iff s1 it).2 hin, (any_beq_iff s2 it).2 ((h it).1 hin)]
        simp only [if_true]
        exact ih s1 s2 h
      · rw [(any_beq_eq_false_iff s1 it).2 hin,
          (any_beq_eq_false_iff s2 it).2 (fun hh => hin ((h it).2 hh))]
        simp only [Bool.false_eq_true, if_false]
        rw [ih (it :: s1) (it :: s2) (by intro v; simp [h v])]

theorem dedupValsSeen_mem :
    ∀ (items : List JValue) (s : List JValue) (v : JValue),
      v ∈ dedupValsSeen s items ↔ v ∈ s ∨ v ∈ items := by
  intro items
  induction items with
  | nil => intro s v; simp [dedupValsSeen]
  | cons it rest ih =>
      intro s v
      rw [dedupValsSeen]
      by_cases hin : it ∈ s
      · rw [(any_beq_iff s it).2 hin]
        simp only [if_true]
        rw [ih s v]
        simp only [List.mem_cons]
        constructor
        · rintro (h2 | h2)
          · exact Or.inl h2
          · exact Or.inr (Or.inr h2)
        · rintro (h2 | h2 | h2)
          · exact Or.inl h2
          · subst h2
            exact Or.inl hin
          · exact Or.inr h2
      · rw [(any_beq_eq_false_iff s it).2 hin]
        simp only [Bool.false_eq_true, if_false]
        rw [ih (it :: s) v]
        simp only [List.mem_cons]
        tauto

theorem dedupValsAux_append :
    ∀ (xs ys : List JValue) (s : List JValue),
      dedupValsAux s (xs ++ ys) =
        dedupValsAux s xs ++ dedupValsAux (dedupValsSeen s xs) ys := by
  intro xs
  induction xs with
  | nil => intro ys s; simp [dedupValsAux, dedupValsSeen]
  | cons it rest ih =>
      intro ys s
      simp only [List.cons_append]
      rw [dedupValsAux, dedupValsAux, dedupValsSeen]
      rcases h1 : s.any (JValue.beq it) with _ | _
      · simp only [Bool.false_eq_true, if_false, List.cons_append]
        rw [ih ys (it :: s)]
      · simp only [if_true]
        exact ih ys s

theorem dedupValsAux_id :
    ∀ (xs : List JValue) (s : List JValue),
      xs.Nodup → (∀ v ∈ xs, v ∉ s) →
      dedupValsAux s xs = xs := by
  intro xs
  induction xs with
  | nil => intro s _ _; rfl
  | cons it rest ih =>
      intro s hnd hdisj
      rw [dedupValsAux,
        (any_beq_eq_false_iff s it).2 (hdisj it (List.mem_cons_self _ _))]
      simp only [Bool.false_eq_true, if_false, List.cons.injEq, true_and]
      refine ih (it :: s) (List.Nodup.of_cons hnd) ?_
      intro v hv
      simp only [List.mem_cons]
      rintro (h3 | h3)
      · subst h3
        exact (List.nodup_cons.1 hnd).1 hv
      · exact hdisj v (List.mem_cons_of_mem _ hv) h3

theorem pyGetItem_of_keyOf (it : JValue) (key : String) (k : JValue)
    (h : keyOf key it = some k) : JValue.pyGetItem it key = .ok k := by
  rcases it with _ | _ | _ | _ | _ | kvs <;> simp [keyOf] at h
  simp [JValue.pyGetItem, h]

theorem wfItem_keyOf (key : String) (it : JValue) (h : wfItem key it = true) :
    ∃ k, keyOf key it = some k ∧ RubricParser.hashable k = true := by
  rcases it with _ | _ | _ | _ | _ | kvs <;> simp [wfItem] at h
  rcases hk : JValue.dget kvs key with _ | k
  · rw [hk] at h
    simp at h
  · rw [hk] at h
    exact ⟨k, by simp [keyOf, hk], h⟩

theorem pyGetItem_obj (kvs : List (String × JValue)) (k : String) (v : JValue)
    (h : JValue.dget kvs k = some v) :
    JValue.pyGetItem (.obj kvs) k = .ok v := by
  simp [JValue.pyGetItem, h]

theorem mergeKeyedItem_fold (field keyName : String) :
    ∀ (items : List JValue),
      (∀ it ∈ items, wfItem keyName it = true) →
      ∀ (mkvs : List (String × JValue)) (cur seen : List JValue),
      JValue.dget mkvs field = some (.arr cur) →
      ∃ seen2,
        items.foldlM (RubricParser.mergeKeyedItem field keyName)
            (JValue.obj mkvs, seen) =
          .ok (.obj (JValue.dset mkvs field
              (.arr (cur ++ dedupKeyedAux keyName seen items))), seen2) ∧
        (∀ v, v ∈ seen2 ↔ v ∈ dedupSeen keyName seen items) := by
  intro items
  induction items with
  | nil =>
      intro _ mkvs cur seen hcur
      refine ⟨seen, ?_, fun v => by simp [dedupSeen]⟩
      simp only [List.foldlM_nil, dedupKeyedAux, List.append_nil]
      rw [JValue.dset_self mkvs field (.arr cur) hcur]
      rfl
  | cons it rest ih =>
      intro hwf mkvs cur seen hcur
      obtain ⟨k, hk, hhash⟩ := wfItem_keyOf keyName it
        (hwf it (List.mem_cons_self _ _))
      have hgi := pyGetItem_of_keyOf it keyName k hk
      have hgc := pyGetItem_obj mkvs field (.arr cur) hcur
      rcases hmem : seen.any (JValue.beq k) with _ | _
      · -- key not seen: the item is appended
        obtain ⟨seen2, hrun, hseen⟩ :=
          ih (fun x hx => hwf x (List.mem_cons_of_mem _ hx))
            (JValue.dset mkvs field (.arr (cur ++ [it])))
            (cur ++ [it]) (k :: seen) (JValue.dget_dset_self mkvs field _)
        refine ⟨seen2, ?_, ?_⟩
        · rw [List.foldlM_cons]
          simp only [RubricParser.mergeKeyedItem, hgi, RubricParser.setMem,
            hhash, if_true, hmem, hgc, RubricParser.pyAppend,
            JValue.pySetItem, RubricParser.setAdd, Bind.bind, Except.bind,
            pure, Except.pure, Bool.false_eq_true, if_false]
          rw [hrun, dset_dset,
            dedupKeyedAux_cons_some keyName seen it rest k hk, hmem]
          simp
        · intro v
          rw [hseen v, dedupSeen_cons_some keyName seen it rest k hk, hmem]
          simp
      · -- key already seen: the item is skipped
        obtain ⟨seen2, hrun, hseen⟩ :=
          ih (fun x hx => hwf x (List.mem_cons_of_mem _ hx))
            mkvs cur seen hcur
        refine ⟨seen2, ?_, ?_⟩
        · rw [List.foldlM_cons]
          simp only [RubricParser.mergeKeyedItem, hgi, RubricParser.setMem,
            hhash, if_true, hmem, Bind.bind, Except.bind, pure, Except.pure]
          rw [hrun, dedupKeyedAux_cons_some keyName seen it rest k hk, hmem]
          simp
        · intro v
          rw [hseen v, dedupSeen_cons_some keyName seen it rest k hk, hmem]
          simp

theorem itemKeys_append (key : String) (xs ys : List JValue) :
    itemKeys key (xs ++ ys) = itemKeys key xs ++ itemKeys key ys := by
  simp [itemKeys]

/-- The shape of a well-formed rubric's `field` entry as the keyed merge
loops need it. -/
def wfFieldEntry (field keyName : String) (r : JValue) : Prop :=
  ∃ rkvs, r = JValue.obj rkvs ∧ ∃ xs,
    JValue.dget rkvs field = some (.arr xs) ∧
    (∀ it ∈ xs, wfItem keyName it = true) ∧ rubricItems field r = xs

theorem mergeKeyedStep_fold (field keyName : String) :
    ∀ (rs : List JValue),
      (∀ r ∈ rs, wfFieldEntry field keyName r) →
      ∀ (mkvs : List (String × JValue)) (cur seen : List JValue),
      JValue.dget mkvs field = some (.arr cur) →
      ∃ seen2,
        rs.foldlM (RubricParser.mergeKeyedStep field keyName)
            (JValue.obj mkvs, seen) =
          .ok (.obj (JValue.dset mkvs field
              (.arr (cur ++ dedupKeyedAux keyName seen (allItems field rs)))),
            seen2) ∧
        (∀ v, v ∈ seen2 ↔
          v ∈ seen ∨ v ∈ itemKeys keyName (allItems field rs)) := by
  intro rs
  induction rs with
  | nil =>
      intro _ mkvs cur seen hcur
      refine ⟨seen, ?_, fun v => by simp [allItems, itemKeys]⟩
      simp only [List.foldlM_nil, allItems, List.map_nil, List.flatten_nil,
        dedupKeyedAux, List.append_nil]
      rw [JValue.dset_self mkvs field (.arr cur) hcur]
      rfl
  | cons r rest ih =>
      intro hwf mkvs cur seen hcur
      obtain ⟨rkvs, hr, xs, hx, hxwf, hitems⟩ :=
        hwf r (List.mem_cons_self _ _)
      obtain ⟨seen1, hrun1, hseen1⟩ :=
        mergeKeyedItem_fold field keyName xs hxwf mkvs cur seen hcur
      obtain ⟨seen2, hrun2, hseen2⟩ :=
        ih (fun x hx2 => hwf x (List.mem_cons_of_mem _ hx2))
          (JValue.dset mkvs field
            (.arr (cur ++ dedupKeyedAux keyName seen xs)))
          (cur ++ dedupKeyedAux keyName seen xs) seen1
          (JValue.dget_dset_self mkvs field _)
      refine ⟨seen2, ?_, ?_⟩
      · rw [List.foldlM_cons]
        subst hr
        simp only [RubricParser.mergeKeyedStep, JValue.pyGetD, hx,
          Option.getD_some, JValue.pyIter, Bind.bind, Except.bind, hrun1,
          hrun2]
        rw [dset_dset]
        have hall : allItems field (JValue.obj rkvs :: rest) =
            xs ++ allItems field rest := by
          simp only [allItems, List.map_cons, List.flatten_cons]
          rw [hitems]
        rw [hall, dedupKeyedAux_append keyName xs (allItems field rest) seen]
        rw [dedupKeyedAux_congr keyName (allItems field rest) seen1
          (dedupSeen keyName seen xs) (fun v => by rw [hseen1 v])]
        simp [List.append_assoc]
      · intro v
        subst hr
        have hall : allItems field (JValue.obj rkvs :: rest) =
            xs ++ allItems field rest := by
          simp only [allItems, List.map_cons, List.flatten_cons]
          rw [hitems]
        rw [hseen2 v, hseen1 v, dedupSeen_mem keyName xs seen v, hall,
          itemKeys_append]
        simp only [List.mem_append]
        tauto

theorem mergeInsightItem_fold :
    ∀ (items : List JValue),
      (∀ it ∈ items, RubricParser.hashable it = true) →
      ∀ (mkvs : List (String × JValue)) (cur seen : List JValue),
      JValue.dget mkvs "key_insights" = some (.arr cur) →
      ∃ seen2,
        items.foldlM RubricParser.mergeInsightItem (JValue.obj mkvs, seen) =
          .ok (.obj (JValue.dset mkvs "key_insights"
              (.arr (cur ++ dedupValsAux seen items))), seen2) ∧
        (∀ v, v ∈ seen2 ↔ v ∈ dedupValsSeen seen items) := by
  intro items
  induction items with
  | nil =>
      intro _ mkvs cur seen hcur
      refine ⟨seen, ?_, fun v => by simp [dedupValsSeen]⟩
      simp only [List.foldlM_nil, dedupValsAux, List.append_nil]
      rw [JValue.dset_self mkvs "key_insights" (.arr cur) hcur]
      rfl
  | cons it rest ih =>
      intro hwf mkvs cur seen hcur
      have hhash := hwf it (List.mem_cons_self _ _)
      have hgc := pyGetItem_obj mkvs "key_insights" (.arr cur) hcur
      rcases hmem : seen.any (JValue.beq it) with _ | _
      · obtain ⟨seen2, hrun, hseen⟩ :=
          ih (fun x hx => hwf x (List.mem_cons_of_mem _ hx))
            (JValue.dset mkvs "key_insights" (.arr (cur ++ [it])))
            (cur ++ [it]) (it :: seen)
            (JValue.dget_dset_self mkvs "key_insights" _)
        refine ⟨seen2, ?_, ?_⟩
        · rw [List.foldlM_cons]
          simp only [RubricParser.mergeInsightItem, RubricParser.setMem,
            hhash, if_true, hmem, hgc, RubricParser.pyAppend,
            JValue.pySetItem, RubricParser.setAdd, Bind.bind, Except.bind,
            pure, Except.pure, Bool.false_eq_true, if_false, hrun]
          rw [dset_dset, dedupValsAux, hmem]
          simp
        · intro v
          rw [hseen v, dedupValsSeen, hmem]
          simp
      · obtain ⟨seen2, hrun, hseen⟩ :=
          ih (fun x hx => hwf x (List.mem_cons_of_mem _ hx))
            mkvs cur seen hcur
        refine ⟨seen2, ?_, ?_⟩
        · rw [List.foldlM_cons]
          simp only [RubricParser.mergeInsightItem, RubricParser.setMem,
            hhash, if_true, hmem, Bind.bind, Except.bind, pure, Except.pure,
            hrun]
          rw [dedupValsAux, hmem]
          simp
        · intro v
          rw [hseen v, dedupValsSeen, hmem]
          simp

/-- The shape of a well-formed rubric's `key_insights` entry. -/
def wfInsightsEntry (r : JValue) : Prop :=
  ∃ rkvs, r = JValue.obj rkvs ∧ ∃ xs,
    JValue.dget rkvs "key_insights" = some (.arr xs) ∧
    (∀ it ∈ xs, RubricParser.hashable it = true) ∧
    rubricItems "key_insights" r = xs

theorem mergeInsightsStep_fold :
    ∀ (rs : List JValue),
      (∀ r ∈ rs, wfInsightsEntry r) →
      ∀ (mkvs : List (String × JValue)) (cur seen : List JValue),
      JValue.dget mkvs "key_insights" = some (.arr cur) →
      ∃ seen2,
        rs.foldlM RubricParser.mergeInsightsStep (JValue.obj mkvs, seen) =
          .ok (.obj (JValue.dset mkvs "key_insights"
              (.arr (cur ++
                dedupValsAux seen (allItems "key_insights" rs)))), seen2) ∧
        (∀ v, v ∈ seen2 ↔
          v ∈ seen ∨ v ∈ allItems "key_insights" rs) := by
  intro rs
  induction rs with
  | nil =>
      intro _ mkvs cur seen hcur
      refine ⟨seen, ?_, fun v => by simp [allItems]⟩
      simp only [List.foldlM_nil, allItems, List.map_nil, List.flatten_nil,
        dedupValsAux, List.append_nil]
      rw [JValue.dset_self mkvs "key_insights" (.arr cur) hcur]
      rfl
  | cons r rest ih =>
      intro hwf mkvs cur seen hcur
      obtain ⟨rkvs, hr, xs, hx, hxwf, hitems⟩ :=
        hwf r (List.mem_cons_self _ _)
      subst hr
      obtain ⟨seen1, hrun1, hseen1⟩ :=
        mergeInsightItem_fold xs hxwf mkvs cur seen hcur
      obtain ⟨seen2, hrun2, hseen2⟩ :=
        ih (fun x hx2 => hwf x (List.mem_cons_of_mem _ hx2))
          (JValue.dset mkvs "key_insights"
            (.arr (cur ++ dedupValsAux seen xs)))
          (cur ++ dedupValsAux seen xs) seen1
          (JValue.dget_dset_self mkvs "key_insights" _)
      have hall : allItems "key_insights" (JValue.obj rkvs :: rest) =
          xs ++ allItems "key_insights" rest := by
        simp only [allItems, List.map_cons, List.flatten_cons]
        rw [hitems]
      refine ⟨seen2, ?_, ?_⟩
      · rw [List.foldlM_cons]
        simp only [RubricParser.mergeInsightsStep, JValue.pyGetD, hx,
          Option.getD_some, JValue.pyIter, Bind.bind, Except.bind, hrun1,
          hrun2]
        rw [dset_dset, hall,
          dedupValsAux_append xs (allItems "key_insights" rest) seen,
          dedupValsAux_congr (allItems "key_insights" rest) seen1
            (dedupValsSeen seen xs) (fun v => by rw [hseen1 v])]
        simp [List.append_assoc]
      · intro v
        rw [hseen2 v, hseen1 v, dedupValsSeen_mem xs seen v, hall]
        simp only [List.mem_append]
        tauto

/-- One later rubric's effect on a benchmark entry, keyed by `k`:
a non-`None` entry of that rubric fills a missing or `None` entry. -/
def benchMergeOne (bItems : List (String × JValue)) (old : Option JValue)
    (k : String) : Option JValue :=
  match JValue.dget bItems k with
  | some v =>
      if v = JValue.null then old
      else
        match old with
        | some w => if w = JValue.null then some v else some w
        | none => some v
  | none => old

/-- The final benchmark entry at `k` after scanning all later rubrics:
a `None` or missing entry takes the first non-`None` later value. -/
def benchFinal (rs : List JValue) (old : Option JValue) (k : String) :
    Option JValue :=
  match old with
  | some w =>
      if w = JValue.null then some ((firstNonNullAt k rs).getD JValue.null)
      else some w
  | none => firstNonNullAt k rs

theorem dget_eq_none_of_not_mem_keys (kvs : List (String × JValue))
    (k : String) (h : k ∉ kvs.map Prod.fst) : JValue.dget kvs k = none := by
  induction kvs with
  | nil => rfl
  | cons kv rest ih =>
      obtain ⟨k', v'⟩ := kv
      simp only [List.map_cons, List.mem_cons] at h
      push_neg at h
      simp only [JValue.dget, if_neg (Ne.symm h.1), ih h.2]

theorem mergeBenchItem_fold :
    ∀ (bItems : List (String × JValue)),
      (bItems.map Prod.fst).Nodup →
      ∀ (mkvs b : List (String × JValue)),
      JValue.dget mkvs "benchmarks" = some (.obj b) →
      ∃ b2,
        bItems.foldlM RubricParser.mergeBenchItem (JValue.obj mkvs) =
          .ok (.obj (JValue.dset mkvs "benchmarks" (.obj b2))) ∧
        ∀ k, JValue.dget b2 k = benchMergeOne bItems (JValue.dget b k) k := by
  intro bItems
  induction bItems with
  | nil =>
      intro _ mkvs b hb
      refine ⟨b, ?_, fun k => by simp [benchMergeOne, JValue.dget]⟩
      simp only [List.foldlM_nil]
      rw [JValue.dset_self mkvs "benchmarks" (.obj b) hb]
      rfl
  | cons kv rest ih =>
      intro hnd mkvs b hb
      obtain ⟨k1, v1⟩ := kv
      have hk1notin : k1 ∉ rest.map Prod.fst := (List.nodup_cons.1 hnd).1
      have hndrest : (rest.map Prod.fst).Nodup := (List.nodup_cons.1 hnd).2
      by_cases hv1 : v1 = JValue.null
      · subst hv1
        obtain ⟨b2, hrun, hspec⟩ := ih hndrest mkvs b hb
        refine ⟨b2, ?_, ?_⟩
        · rw [List.foldlM_cons]
          simp only [RubricParser.mergeBenchItem, eq_self_iff_true, if_true,
            Bind.bind, Except.bind, pure, Except.pure, hrun]
        · intro k
          rw [hspec k]
          by_cases hk : k = k1
          · subst hk
            simp only [benchMergeOne, JValue.dget, eq_self_iff_true,
              if_true, dget_eq_none_of_not_mem_keys rest k hk1notin]
          · simp only [benchMergeOne, JValue.dget,
              if_neg (Ne.symm hk)]
      · rcases hcur : JValue.dget b k1 with _ | w
        · -- entry absent in the accumulated benchmarks: it is written
          obtain ⟨b2, hrun, hspec⟩ := ih hndrest
            (JValue.dset mkvs "benchmarks" (.obj (JValue.dset b k1 v1)))
            (JValue.dset b k1 v1)
            (JValue.dget_dset_self mkvs "benchmarks" _)
          refine ⟨b2, ?_, ?_⟩
          · rw [List.foldlM_cons]
            simp only [RubricParser.mergeBenchItem, hv1, if_false,
              JValue.pyGetD, hb, Option.getD_some, hcur, Option.getD_none,
              eq_self_iff_true, if_true,
              pyGetItem_obj mkvs "benchmarks" (.obj b) hb,
              JValue.pySetItem, Bind.bind, Except.bind, pure, Except.pure,
              hrun, dset_dset]
          · intro k
            rw [hspec k]
            by_cases hk : k = k1
            · subst hk
              simp only [benchMergeOne, JValue.dget, eq_self_iff_true,
                if_true, hv1, if_false,
                dget_eq_none_of_not_mem_keys rest k hk1notin,
                JValue.dget_dset_self, hcur]
            · simp only [benchMergeOne, JValue.dget,
                if_neg (Ne.symm hk),
                JValue.dget_dset_ne b k1 k v1 hk]
        · by_cases hw : w = JValue.null
          · -- entry present but None: it is overwritten
            subst hw
            obtain ⟨b2, hrun, hspec⟩ := ih hndrest
              (JValue.dset mkvs "benchmarks" (.obj (JValue.dset b k1 v1)))
              (JValue.dset b k1 v1)
              (JValue.dget_dset_self mkvs "benchmarks" _)
            refine ⟨b2, ?_, ?_⟩
            · rw [List.foldlM_cons]
              simp only [RubricParser.mergeBenchItem, hv1, if_false,
                JValue.pyGetD, hb, Option.getD_some, hcur, Option.getD_some,
                eq_self_iff_true, if_true,
                pyGetItem_obj mkvs "benchmarks" (.obj b) hb,
                JValue.pySetItem, Bind.bind, Except.bind, pure, Except.pure,
                hrun, dset_dset]
            · intro k
              rw [hspec k]
              by_cases hk : k = k1
              · subst hk
                simp only [benchMergeOne, JValue.dget, eq_self_iff_true,
                  if_true, hv1, if_false,
                  dget_eq_none_of_not_mem_keys rest k hk1notin,
                  JValue.dget_dset_self, hcur]
              · simp only [benchMergeOne, JValue.dget,
                  if_neg (Ne.symm hk),
                  JValue.dget_dset_ne b k1 k v1 hk]
          · -- entry present and non-None: left alone
            obtain ⟨b2, hrun, hspec⟩ := ih hndrest mkvs b hb
            refine ⟨b2, ?_, ?_⟩
            · rw [List.foldlM_cons]
              simp only [RubricParser.mergeBenchItem, hv1, if_false,
                JValue.pyGetD, hb, Option.getD_some, hcur, Option.getD_some,
                hw, Bind.bind, Except.bind, pure, Except.pure, hrun]
            · intro k
              rw [hspec k]
              by_cases hk : k = k1
              · subst hk
                simp only [benchMergeOne, JValue.dget, eq_self_iff_true,
                  if_true, hv1, if_false,
                  dget_eq_none_of_not_mem_keys rest k hk1notin, hcur, hw]
              · simp only [benchMergeOne, JValue.dget,
                  if_neg (Ne.symm hk)]

/-- The shape of a well-formed rubric's `benchmarks` entry. -/
def wfBenchEntry (r : JValue) : Prop :=
  ∃ rkvs, r = JValue.obj rkvs ∧ ∃ bkvs,
    JValue.dget rkvs "benchmarks" = some (.obj bkvs) ∧
    (bkvs.map Prod.fst).Nodup

theorem benchFinal_nil (old : Option JValue) (k : String) :
    benchFinal [] old k = old := by
  rcases old with _ | w
  · rfl
  · by_cases hw : w = JValue.null
    · subst hw
      simp [benchFinal, firstNonNullAt]
    · simp [benchFinal, hw]

theorem benchFinal_step (rkvs : List (String × JValue))
    (bI : List (String × JValue)) (rest : List JValue)
    (hbI : JValue.dget rkvs "benchmarks" = some (.obj bI))
    (old : Option JValue) (k : String) :
    benchFinal rest (benchMergeOne bI old k) k =
      benchFinal (JValue.obj rkvs :: rest) old k := by
  have hfn : firstNonNullAt k (JValue.obj rkvs :: rest) =
      match JValue.dget bI k with
      | some v =>
          if v = JValue.null then firstNonNullAt k rest else some v
      | none => firstNonNullAt k rest := by
    rw [firstNonNullAt]
    simp only [benchAt, hbI]
  rcases hbk : JValue.dget bI k with _ | v
  · -- this rubric has no entry at k
    have hf2 : firstNonNullAt k (JValue.obj rkvs :: rest) =
        firstNonNullAt k rest := by rw [hfn, hbk]
    simp only [benchMergeOne, hbk]
    unfold benchFinal
    rw [hf2]
  · by_cases hv : v = JValue.null
    · subst hv
      have hf2 : firstNonNullAt k (JValue.obj rkvs :: rest) =
          firstNonNullAt k rest := by
        rw [hfn, hbk]
        simp
      simp only [benchMergeOne, hbk, eq_self_iff_true, if_true]
      unfold benchFinal
      rw [hf2]
    · -- this rubric has a non-None entry at k
      have hf3 : firstNonNullAt k (JValue.obj rkvs :: rest) = some v := by
        rw [hfn, hbk]
        simp [hv]
      simp only [benchMergeOne, hbk, hv, if_false]
      rcases old with _ | w
      · simp [benchFinal, hv, hf3]
      · by_cases hw : w = JValue.null
        · subst hw
          simp [benchFinal, hv, hf3]
        · simp [benchFinal, hw]

theorem mergeBenchStep_fold :
    ∀ (rs : List JValue),
      (∀ r ∈ rs, wfBenchEntry r) →
      ∀ (mkvs b : List (String × JValue)),
      JValue.dget mkvs "benchmarks" = some (.obj b) →
      ∃ b2,
        rs.foldlM RubricParser.mergeBenchStep (JValue.obj mkvs) =
          .ok (.obj (JValue.dset mkvs "benchmarks" (.obj b2))) ∧
        ∀ k, JValue.dget b2 k = benchFinal rs (JValue.dget b k) k := by
  intro rs
  induction rs with
  | nil =>
      intro _ mkvs b hb
      refine ⟨b, ?_, fun k => (benchFinal_nil _ k).symm⟩
      simp only [List.foldlM_nil]
      rw [JValue.dset_self mkvs "benchmarks" (.obj b) hb]
      rfl
  | cons r rest ih =>
      intro hwf mkvs b hb
      obtain ⟨rkvs, hr, bI, hbI, hnd⟩ := hwf r (List.mem_cons_self _ _)
      subst hr
      obtain ⟨b1, hrun1, hspec1⟩ := mergeBenchItem_fold bI hnd mkvs b hb
      obtain ⟨b2, hrun2, hspec2⟩ :=
        ih (fun x hx => hwf x (List.mem_cons_of_mem _ hx))
          (JValue.dset mkvs "benchmarks" (.obj b1)) b1
          (JValue.dget_dset_self mkvs "benchmarks" _)
      refine ⟨b2, ?_, ?_⟩
      · rw [List.foldlM_cons]
        simp only [RubricParser.mergeBenchStep, JValue.pyGetD, hbI,
          Option.getD_some, RubricParser.pyItems, Bind.bind, Except.bind,
          hrun1, hrun2, dset_dset]
      · intro k
        rw [hspec2 k, hspec1 k, benchFinal_step rkvs bI rest hbI]

theorem initSeenItem_fold (keyName : String) :
    ∀ (items : List JValue),
      (∀ it ∈ items, wfItem keyName it = true) →
      ∀ acc, ∃ s2,
        items.foldlM (RubricParser.initSeenItem keyName) acc = .ok s2 ∧
        (∀ v, v ∈ s2 ↔ v ∈ acc ∨ v ∈ itemKeys keyName items) := by
  intro items
  induction items with
  | nil =>
      intro _ acc
      exact ⟨acc, rfl, fun v => by simp [itemKeys]⟩
  | cons it rest ih =>
      intro hwf acc
      obtain ⟨k, hk, hhash⟩ := wfItem_keyOf keyName it
        (hwf it (List.mem_cons_self _ _))
      have hkeys : itemKeys keyName (it :: rest) =
          k :: itemKeys keyName rest := by
        simp [itemKeys, List.filterMap_cons, hk]
      rcases hmem : acc.any (JValue.beq k) with _ | _
      · obtain ⟨s2, hrun, hs⟩ :=
          ih (fun x hx => hwf x (List.mem_cons_of_mem _ hx)) (k :: acc)
        refine ⟨s2, ?_, ?_⟩
        · rw [List.foldlM_cons]
          simp only [RubricParser.initSeenItem,
            pyGetItem_of_keyOf it keyName k hk, RubricParser.setAdd, hhash,
            if_true, hmem, Bool.false_eq_true, if_false, Bind.bind,
            Except.bind, hrun]
        · intro v
          rw [hs v, hkeys]
          simp only [List.mem_cons]
          tauto
      · obtain ⟨s2, hrun, hs⟩ :=
          ih (fun x hx => hwf x (List.mem_cons_of_mem _ hx)) acc
        refine ⟨s2, ?_, ?_⟩
        · rw [List.foldlM_cons]
          simp only [RubricParser.initSeenItem,
            pyGetItem_of_keyOf it keyName k hk, RubricParser.setAdd, hhash,
            if_true, hmem, Bind.bind, Except.bind, hrun]
        · intro v
          rw [hs v, hkeys]
          simp only [List.mem_cons]
          constructor
          · rintro (h2 | h2)
            · exact Or.inl h2
            · exact Or.inr (Or.inr h2)
          · rintro (h2 | h2 | h2)
            · exact Or.inl h2
            · subst h2
              exact Or.inl ((any_beq_iff acc v).1 hmem)
            · exact Or.inr h2

theorem initSeen_spec (field keyName : String)
    (mkvs : List (String × JValue)) (xs : List JValue)
    (hx : JValue.dget mkvs field = some (.arr xs))
    (hwf : ∀ it ∈ xs, wfItem keyName it = true) :
    ∃ s, RubricParser.initSeen field keyName (.obj mkvs) = .ok s ∧
      (∀ v, v ∈ s ↔ v ∈ itemKeys keyName xs) := by
  obtain ⟨s, hrun, hs⟩ := initSeenItem_fold keyName xs hwf []
  refine ⟨s, ?_, fun v => by rw [hs v]; simp⟩
  simp only [RubricParser.initSeen, JValue.pyGetD, hx, Option.getD_some,
    JValue.pyIter, Bind.bind, Except.bind, hrun]

theorem setAdd_fold :
    ∀ (items : List JValue),
      (∀ it ∈ items, RubricParser.hashable it = true) →
      ∀ acc, ∃ s2,
        items.foldlM RubricParser.setAdd acc = .ok s2 ∧
        (∀ v, v ∈ s2 ↔ v ∈ acc ∨ v ∈ items) := by
  intro items
  induction items with
  | nil =>
      intro _ acc
      exact ⟨acc, rfl, fun v => by simp⟩
  | cons it rest ih =>
      intro hwf acc
      have hhash := hwf it (List.mem_cons_self _ _)
      rcases hmem : acc.any (JValue.beq it) with _ | _
      · obtain ⟨s2, hrun, hs⟩ :=
          ih (fun x hx => hwf x (List.mem_cons_of_mem _ hx)) (it :: acc)
        refine ⟨s2, ?_, ?_⟩
        · rw [List.foldlM_cons]
          simp only [RubricParser.setAdd, hhash, if_true, hmem,
            Bool.false_eq_true, if_false, Bind.bind, Except.bind, hrun]
        · intro v
          rw [hs v]
          simp only [List.mem_cons]
          tauto
      · obtain ⟨s2, hrun, hs⟩ :=
          ih (fun x hx => hwf x (List.mem_cons_of_mem _ hx)) acc
        refine ⟨s2, ?_, ?_⟩
        · rw [List.foldlM_cons]
          simp only [RubricParser.setAdd, hhash, if_true, hmem, Bind.bind,
            Except.bind, hrun]
        · intro v
          rw [hs v]
          simp only [List.mem_cons]
          constructor
          · rintro (h2 | h2)
            · exact Or.inl h2
            · exact Or.inr (Or.inr h2)
          · rintro (h2 | h2 | h2)
            · exact Or.inl h2
            · subst h2
              exact Or.inl ((any_beq_iff acc v).1 hmem)
            · exact Or.inr h2

theorem wfRubric_fields (r : JValue) (h : wfRubric r = true) :
    wfFieldEntry "phases" "name" r ∧ wfInsightsEntry r ∧ wfBenchEntry r ∧
      wfFieldEntry "decision_points" "trigger" r := by
  rcases r with _ | _ | _ | _ | _ | kvs <;> simp only [wfRubric] at h <;>
    try simp at h
  obtain ⟨⟨⟨h1, h2⟩, h3⟩, h4⟩ := h
  refine ⟨?_, ?_, ?_, ?_⟩
  · rcases hp : JValue.dget kvs "phases" with _ | v
    · rw [hp] at h1
      simp at h1
    · rw [hp] at h1
      rcases v with _ | _ | _ | _ | xs | _
      case arr =>
        exact ⟨kvs, rfl, xs, hp, by simpa [List.all_eq_true] using h1,
          by simp [rubricItems, hp]⟩
      all_goals simp at h1
  · rcases hp : JValue.dget kvs "key_insights" with _ | v
    · rw [hp] at h2
      simp at h2
    · rw [hp] at h2
      rcases v with _ | _ | _ | _ | xs | _
      case arr =>
        exact ⟨kvs, rfl, xs, hp, by simpa [List.all_eq_true] using h2,
          by simp [rubricItems, hp]⟩
      all_goals simp at h2
  · rcases hp : JValue.dget kvs "benchmarks" with _ | v
    · rw [hp] at h3
      simp at h3
    · rw [hp] at h3
      rcases v with _ | _ | _ | _ | _ | bkvs
      case obj => exact ⟨kvs, rfl, bkvs, hp, by simpa using h3⟩
      all_goals simp at h3
  · rcases hp : JValue.dget kvs "decision_points" with _ | v
    · rw [hp] at h4
      simp at h4
    · rw [hp] at h4
      rcases v with _ | _ | _ | _ | xs | _
      case arr =>
        exact ⟨kvs, rfl, xs, hp, by simpa [List.all_eq_true] using h4,
          by simp [rubricItems, hp]⟩
      all_goals simp at h4

/-- C1 amended: `merge_rubrics` of an empty list is the empty dict and of
a one-element list is that element; for two or more well-formed rubrics
whose FIRST rubric carries no internal duplicates (pairwise-distinct
phase names, key insights and decision-point triggers — the claim as
stated fails without this, see the counterexample), the merged rubric's
phases are all input phases deduplicated by `'name'` keeping the first
occurrence in input order, its key insights are deduplicated by value,
its decision points are deduplicated by `'trigger'`, and each benchmark
entry that is `None` (or missing) in the first rubric takes the first
non-`None` value found in the later rubrics. -/
theorem c1_merge_rubrics :
    RubricParser.mergeRubrics [] = .ok (.obj [], []) ∧
    (∀ r, RubricParser.mergeRubrics [r] = .ok (r, [r])) ∧
    (∀ (first r2 : JValue) (rest2 : List JValue),
      (∀ r ∈ first :: r2 :: rest2, wfRubric r = true) →
      (itemKeys "name" (rubricItems "phases" first)).Nodup →
      (rubricItems "key_insights" first).Nodup →
      (itemKeys "trigger" (rubricItems "decision_points" first)).Nodup →
      ∃ m, RubricParser.mergeRubrics (first :: r2 :: rest2) =
          .ok (m, m :: r2 :: rest2) ∧
        JValue.pyGetItem m "phases" =
          .ok (.arr (dedupKeyedSpec "name"
            (allItems "phases" (first :: r2 :: rest2)))) ∧
        JValue.pyGetItem m "key_insights" =
          .ok (.arr (dedupValsSpec
            (allItems "key_insights" (first :: r2 :: rest2)))) ∧
        JValue.pyGetItem m "decision_points" =
          .ok (.arr (dedupKeyedSpec "trigger"
            (allItems "decision_points" (first :: r2 :: rest2)))) ∧
        (∀ k, benchAt m k =
          benchFinal (r2 :: rest2) (benchAt first k) k)) := by
  refine ⟨rfl, fun r => rfl, ?_⟩
  intro first r2 rest2 hwf hndP hndI hndD
  obtain ⟨hfP, hfI, hfB, hfD⟩ :=
    wfRubric_fields first (hwf first (List.mem_cons_self _ _))
  obtain ⟨fkvs, rfl, xs0, hxs0, hxs0wf, hfitemsP⟩ := hfP
  obtain ⟨fkvs2, heq, ins0, hins0, hins0wf, hfitemsI⟩ := hfI
  cases heq
  obtain ⟨fkvs3, heq, b0, hb0, hb0nd⟩ := hfB
  cases heq
  obtain ⟨fkvs4, heq, dp0, hdp0, hdp0wf, hfitemsD⟩ := hfD
  cases heq
  rw [hfitemsP] at hndP
  rw [hfitemsI] at hndI
  rw [hfitemsD] at hndD
  have hrest : ∀ r ∈ r2 :: rest2, wfRubric r = true :=
    fun r hr => hwf r (List.mem_cons_of_mem _ hr)
  have hPh : ∀ r ∈ r2 :: rest2, wfFieldEntry "phases" "name" r :=
    fun r hr => (wfRubric_fields r (hrest r hr)).1
  have hIns : ∀ r ∈ r2 :: rest2, wfInsightsEntry r :=
    fun r hr => (wfRubric_fields r (hrest r hr)).2.1
  have hBen : ∀ r ∈ r2 :: rest2, wfBenchEntry r :=
    fun r hr => (wfRubric_fields r (hrest r hr)).2.2.1
  have hDp : ∀ r ∈ r2 :: rest2, wfFieldEntry "decision_points" "trigger" r :=
    fun r hr => (wfRubric_fields r (hrest r hr)).2.2.2
  -- phases pass
  obtain ⟨sP, hSP, hSPmem⟩ :=
    initSeen_spec "phases" "name" fkvs xs0 hxs0 hxs0wf
  obtain ⟨sP2, hrunP, _⟩ :=
    mergeKeyedStep_fold "phases" "name" (r2 :: rest2) hPh fkvs xs0 sP hxs0
  set AP := dedupKeyedAux "name" sP (allItems "phases" (r2 :: rest2))
    with hAP
  set mk1 := JValue.dset fkvs "phases" (.arr (xs0 ++ AP)) with hmk1
  -- key-insights pass
  have hins1 : JValue.dget mk1 "key_insights" = some (.arr ins0) := by
    rw [hmk1, JValue.dget_dset_ne fkvs "phases" "key_insights" _ (by decide)]
    exact hins0
  obtain ⟨sI, hrunI0, hsImem⟩ := setAdd_fold ins0 hins0wf []
  obtain ⟨sI2, hrunIns, _⟩ :=
    mergeInsightsStep_fold (r2 :: rest2) hIns mk1 ins0 sI hins1
  set AI := dedupValsAux sI (allItems "key_insights" (r2 :: rest2)) with hAI
  set mk2 := JValue.dset mk1 "key_insights" (.arr (ins0 ++ AI)) with hmk2
  -- benchmarks pass
  have hb2 : JValue.dget mk2 "benchmarks" = some (.obj b0) := by
    rw [hmk2, JValue.dget_dset_ne mk1 "key_insights" "benchmarks" _ (by decide),
      hmk1, JValue.dget_dset_ne fkvs "phases" "benchmarks" _ (by decide)]
    exact hb0
  obtain ⟨bF, hrunB, hbFspec⟩ :=
    mergeBenchStep_fold (r2 :: rest2) hBen mk2 b0 hb2
  set mk3 := JValue.dset mk2 "benchmarks" (.obj bF) with hmk3
  -- decision-points pass
  have hdp3 : JValue.dget mk3 "decision_points" = some (.arr dp0) := by
    rw [hmk3, JValue.dget_dset_ne mk2 "benchmarks" "decision_points" _
        (by decide),
      hmk2, JValue.dget_dset_ne mk1 "key_insights" "decision_points" _
        (by decide),
      hmk1, JValue.dget_dset_ne fkvs "phases" "decision_points" _ (by decide)]
    exact hdp0
  obtain ⟨sD, hSD, hSDmem⟩ :=
    initSeen_spec "decision_points" "trigger" mk3 dp0 hdp3 hdp0wf
  obtain ⟨sD2, hrunD, _⟩ :=
    mergeKeyedStep_fold "decision_points" "trigger" (r2 :: rest2) hDp mk3 dp0
      sD hdp3
  set AD := dedupKeyedAux "trigger" sD (allItems "decision_points"
    (r2 :: rest2)) with hAD
  set mk4 := JValue.dset mk3 "decision_points" (.arr (dp0 ++ AD)) with hmk4
  have hmain : RubricParser.mergeRubrics (JValue.obj fkvs :: r2 :: rest2) =
      .ok (.obj mk4, .obj mk4 :: r2 :: rest2) := by
    simp only [RubricParser.mergeRubrics, hSP, hrunP, JValue.pyGetD, hins1,
      Option.getD_some, JValue.pyIter, hrunI0, hrunIns, hrunB, hSD, hrunD,
      Bind.bind, Except.bind, ← hmk1, ← hmk2, ← hmk3, ← hmk4]
  refine ⟨.obj mk4, hmain, ?_, ?_, ?_, ?_⟩
  · -- phases
    have hget : JValue.dget mk4 "phases" = some (.arr (xs0 ++ AP)) := by
      rw [hmk4, JValue.dget_dset_ne mk3 "decision_points" "phases" _
          (by decide),
        hmk3, JValue.dget_dset_ne mk2 "benchmarks" "phases" _ (by decide),
        hmk2, JValue.dget_dset_ne mk1 "key_insights" "phases" _ (by decide),
        hmk1, JValue.dget_dset_self]
    rw [pyGetItem_obj mk4 "phases" _ hget]
    have hall : allItems "phases" (JValue.obj fkvs :: r2 :: rest2) =
        xs0 ++ allItems "phases" (r2 :: rest2) := by
      simp only [allItems, List.map_cons, List.flatten_cons]
      rw [hfitemsP]
    rw [hall]
    unfold dedupKeyedSpec
    rw [dedupKeyedAux_append "name" xs0 (allItems "phases" (r2 :: rest2)) [],
      dedupKeyedAux_id "name" xs0 [] hxs0wf hndP (by simp),
      hAP, dedupKeyedAux_congr "name" (allItems "phases" (r2 :: rest2)) sP
        (dedupSeen "name" [] xs0)
        (fun v => by simp [hSPmem v, dedupSeen_mem])]
  · -- key insights
    have hget : JValue.dget mk4 "key_insights" = some (.arr (ins0 ++ AI)) := by
      rw [hmk4, JValue.dget_dset_ne mk3 "decision_points" "key_insights" _
          (by decide),
        hmk3, JValue.dget_dset_ne mk2 "benchmarks" "key_insights" _
          (by decide),
        hmk2, JValue.dget_dset_self]
    rw [pyGetItem_obj mk4 "key_insights" _ hget]
    have hall : allItems "key_insights" (JValue.obj fkvs :: r2 :: rest2) =
        ins0 ++ allItems "key_insights" (r2 :: rest2) := by
      simp only [allItems, List.map_cons, List.flatten_cons]
      rw [hfitemsI]
    rw [hall]
    unfold dedupValsSpec
    rw [dedupValsAux_append ins0 (allItems "key_insights" (r2 :: rest2)) [],
      dedupValsAux_id ins0 [] hndI (by simp),
      hAI, dedupValsAux_congr (allItems "key_insights" (r2 :: rest2)) sI
        (dedupValsSeen [] ins0)
        (fun v => by simp [hsImem v, dedupValsSeen_mem])]
  · -- decision points
    have hget : JValue.dget mk4 "decision_points" =
        some (.arr (dp0 ++ AD)) := by
      rw [hmk4, JValue.dget_dset_self]
    rw [pyGetItem_obj mk4 "decision_points" _ hget]
    have hall : allItems "decision_points" (JValue.obj fkvs :: r2 :: rest2) =
        dp0 ++ allItems "decision_points" (r2 :: rest2) := by
      simp only [allItems, List.map_cons, List.flatten_cons]
      rw [hfitemsD]
    rw [hall]
    unfold dedupKeyedSpec
    rw [dedupKeyedAux_append "trigger" dp0
        (allItems "decision_points" (r2 :: rest2)) [],
      dedupKeyedAux_id "trigger" dp0 [] hdp0wf hndD (by simp),
      hAD, dedupKeyedAux_congr "trigger"
        (allItems "decision_points" (r2 :: rest2)) sD
        (dedupSeen "trigger" [] dp0)
        (fun v => by simp [hSDmem v, dedupSeen_mem])]
  · -- benchmarks
    intro k
    have hget : JValue.dget mk4 "benchmarks" = some (.obj bF) := by
      rw [hmk4, JValue.dget_dset_ne mk3 "decision_points" "benchmarks" _
          (by decide),
        hmk3, JValue.dget_dset_self]
    have hbm : benchAt (.obj mk4) k = JValue.dget bF k := by
      simp [benchAt, hget]
    have hbf : benchAt (.obj fkvs) k = JValue.dget b0 k := by
      simp [benchAt, hb0]
    rw [hbm, hbf, hbFspec k]

/-- Witness for the amended C1 at the concrete pair of rubrics. -/
theorem c1_merge_rubrics_witness :
    (∀ r ∈ r1c10 :: r2c10 :: ([] : List JValue), wfRubric r = true) ∧
    (itemKeys "name" (rubricItems "phases" r1c10)).Nodup ∧
    (rubricItems "key_insights" r1c10).Nodup ∧
    (itemKeys "trigger" (rubricItems "decision_points" r1c10)).Nodup ∧
    ∃ m, RubricParser.mergeRubrics (r1c10 :: r2c10 :: []) =
        .ok (m, m :: r2c10 :: []) ∧
      JValue.pyGetItem m "phases" =
        .ok (.arr (dedupKeyedSpec "name"
          (allItems "phases" (r1c10 :: r2c10 :: [])))) ∧
      JValue.pyGetItem m "key_insights" =
        .ok (.arr (dedupValsSpec
          (allItems "key_insights" (r1c10 :: r2c10 :: [])))) ∧
      JValue.pyGetItem m "decision_points" =
        .ok (.arr (dedupKeyedSpec "trigger"
          (allItems "decision_points" (r1c10 :: r2c10 :: [])))) ∧
      (∀ k, benchAt m k =
        benchFinal (r2c10 :: []) (benchAt r1c10 k) k) := by
  have hwf : ∀ r ∈ r1c10 :: r2c10 :: ([] : List JValue),
      wfRubric r = true := by decide
  have h1 : (itemKeys "name" (rubricItems "phases" r1c10)).Nodup := by decide
  have h2 : (rubricItems "key_insights" r1c10).Nodup := by decide
  have h3 : (itemKeys "trigger"
      (rubricItems "decision_points" r1c10)).Nodup := by decide
  exact ⟨hwf, h1, h2, h3,
    c1_merge_rubrics.2.2 r1c10 r2c10 [] hwf h1 h2 h3⟩

/-! ## C2/C5/C6 — parse_rubric_json and _validate_rubric -/

theorem pySetdefault_ok (x : JValue) (k : String) (v y : JValue)
    (h : JValue.pySetdefault x k v = .ok y) :
    ∃ kvs, x = .obj kvs ∧ y = .obj (JValue.dsetdefault kvs k v) := by
  rcases x with _ | _ | _ | _ | _ | kvs <;>
    simp [JValue.pySetdefault] at h
  exact ⟨kvs, rfl, h.symm⟩

theorem pyGetD_ok (x : JValue) (k : String) (d y : JValue)
    (h : JValue.pyGetD x k d = .ok y) :
    ∃ kvs, x = .obj kvs ∧ y = (JValue.dget kvs k).getD d := by
  rcases x with _ | _ | _ | _ | _ | kvs <;>
    simp [JValue.pyGetD] at h
  exact ⟨kvs, rfl, h.symm⟩

theorem pySetItem_ok (x : JValue) (k : String) (v y : JValue)
    (h : JValue.pySetItem x k v = .ok y) :
    ∃ kvs, x = .obj kvs ∧ y = .obj (JValue.dset kvs k v) := by
  rcases x with _ | _ | _ | _ | _ | kvs <;>
    simp [JValue.pySetItem] at h
  exact ⟨kvs, rfl, h.symm⟩

/-- `validateAction` inverted: a successful run forces a dict input, the
output carries `importance`, running it again is the identity, and a
missing `importance` is filled with `'important'`. -/
theorem validateAction_post (a0 a : JValue)
    (h : RubricParser.validateAction a0 = .ok a) :
    (∃ akvs, a = .obj akvs ∧ JValue.dmem akvs "importance" = true) ∧
    RubricParser.validateAction a = .ok a ∧
    (∀ a0kvs, a0 = .obj a0kvs → JValue.dget a0kvs "importance" = none →
      ∃ akvs, a = .obj akvs ∧
        JValue.dget akvs "importance" = some (.str "important")) := by
  obtain ⟨akvs0, ha0, ha⟩ := pySetdefault_ok a0 "importance" _ a h
  subst ha0
  subst ha
  refine ⟨⟨_, rfl, JValue.dmem_dsetdefault_self akvs0 "importance" _⟩, ?_, ?_⟩
  · simp only [RubricParser.validateAction, JValue.pySetdefault,
      Except.ok.injEq, JValue.obj.injEq]
    rw [JValue.dsetdefault_of_mem _ "importance" _
      (JValue.dmem_dsetdefault_self akvs0 "importance" _)]
  · intro a0kvs heq hnone
    cases heq
    exact ⟨_, rfl, JValue.dget_dsetdefault_absent akvs0 "importance" _ hnone⟩

theorem mapM_validateAction_post :
    ∀ (items items2 : List JValue),
      items.mapM RubricParser.validateAction = .ok items2 →
      (∀ a ∈ items2, ∃ akvs, a = .obj akvs ∧
        JValue.dmem akvs "importance" = true) ∧
      items2.mapM RubricParser.validateAction = .ok items2 := by
  intro items
  induction items with
  | nil =>
      intro items2 h
      simp only [List.mapM_nil, pure, Except.pure, Except.ok.injEq] at h
      subst h
      exact ⟨by simp, rfl⟩
  | cons a0 rest ih =>
      intro items2 h
      rw [List.mapM_cons] at h
      obtain ⟨a, ha, h⟩ := pybind_ok h
      obtain ⟨rest2, hrest, h⟩ := pybind_ok h
      simp only [pure, Except.pure, Except.ok.injEq] at h
      subst h
      obtain ⟨hshape, hfix, _⟩ := validateAction_post a0 a ha
      obtain ⟨hshapes, hfixes⟩ := ih rest2 hrest
      constructor
      · intro x hx
        rcases List.mem_cons.1 hx with hx | hx
        · subst hx
          exact hshape
        · exact hshapes x hx
      · rw [List.mapM_cons, hfix, hfixes]
        rfl

theorem pyIter_non_arr_strings (x : JValue) (items : List JValue)
    (h : JValue.pyIter x = .ok items) (hna : ∀ xs, x ≠ .arr xs) :
    ∀ y ∈ items, ∃ s, y = .str s := by
  rcases x with _ | _ | _ | s | xs | kvs
  case null => simp [JValue.pyIter] at h
  case bool => simp [JValue.pyIter] at h
  case num => simp [JValue.pyIter] at h
  case arr => exact absurd rfl (hna xs)
  case str =>
    simp only [JValue.pyIter, Except.ok.injEq] at h
    subst h
    intro y hy
    obtain ⟨c, _, hc⟩ := List.mem_map.1 hy
    exact ⟨_, hc.symm⟩
  case obj =>
    simp only [JValue.pyIter, Except.ok.injEq] at h
    subst h
    intro y hy
    obtain ⟨kv, _, hkv⟩ := List.mem_map.1 hy
    exact ⟨_, hkv.symm⟩

theorem validatePhase_post (p0 p : JValue)
    (h : RubricParser.validatePhase p0 = .ok p) :
    (∃ pkvs, p = .obj pkvs ∧
      JValue.dmem pkvs "key_actions" = true ∧
      JValue.dmem pkvs "success_criteria" = true ∧
      JValue.dmem pkvs "common_mistakes" = true ∧
      (∀ ka, JValue.dget pkvs "key_actions" = some (.arr ka) →
        ∀ a ∈ ka, ∃ akvs, a = .obj akvs ∧
          JValue.dmem akvs "importance" = true)) ∧
    RubricParser.validatePhase p = .ok p := by
  simp only [RubricParser.validatePhase, Bind.bind, Except.bind] at h
  obtain ⟨p1, h1, h⟩ := pybind_ok (by exact h)
  obtain ⟨p2, h2, h⟩ := pybind_ok h
  obtain ⟨p3, h3, h⟩ := pybind_ok h
  obtain ⟨kaVal, h4, h⟩ := pybind_ok h
  obtain ⟨items, h5, h⟩ := pybind_ok h
  obtain ⟨items2, h6, hfin⟩ := pybind_ok h
  injection hfin with hfin
  obtain ⟨k0, hp0, hp1⟩ := pySetdefault_ok _ _ _ _ h1
  subst hp0
  subst hp1
  obtain ⟨k1, hpeq, hp2⟩ := pySetdefault_ok _ _ _ _ h2
  rw [JValue.obj.injEq] at hpeq
  subst hpeq
  subst hp2
  obtain ⟨k2, hpeq, hp3⟩ := pySetdefault_ok _ _ _ _ h3
  rw [JValue.obj.injEq] at hpeq
  subst hpeq
  subst hp3
  set kvs3 := JValue.dsetdefault (JValue.dsetdefault (JValue.dsetdefault k0
    "key_actions" (.arr [])) "success_criteria" (.arr []))
    "common_mistakes" (.arr []) with hkvs3
  have hmemKA : JValue.dmem kvs3 "key_actions" = true := by
    rw [hkvs3]
    exact JValue.dmem_dsetdefault _ _ _ _
      (JValue.dmem_dsetdefault _ _ _ _
        (JValue.dmem_dsetdefault_self _ _ _))
  have hmemSC : JValue.dmem kvs3 "success_criteria" = true := by
    rw [hkvs3]
    exact JValue.dmem_dsetdefault _ _ _ _
      (JValue.dmem_dsetdefault_self _ _ _)
  have hmemCM : JValue.dmem kvs3 "common_mistakes" = true := by
    rw [hkvs3]
    exact JValue.dmem_dsetdefault_self _ _ _
  obtain ⟨k3, hpeq, hka⟩ := pyGetD_ok _ _ _ _ h4
  rw [JValue.obj.injEq] at hpeq
  rw [← hpeq] at hka
  clear hpeq
  have hkamem : JValue.dget kvs3 "key_actions" = some kaVal := by
    rcases hd : JValue.dget kvs3 "key_actions" with _ | w
    · rw [JValue.dmem, hd] at hmemKA
      simp at hmemKA
    · rw [hd] at hka
      simp only [Option.getD_some] at hka
      rw [hka]
  obtain ⟨hacts, hfixacts⟩ := mapM_validateAction_post items items2 h6
  rcases hkaarr : kaVal with _ | _ | _ | _ | xs | _
  case arr =>
    -- the key-actions list is replaced by the validated actions
    subst hkaarr
    rw [JValue.pyIter] at h5
    simp only [Except.ok.injEq] at h5
    subst h5
    have hp : p = .obj (JValue.dset kvs3 "key_actions" (.arr items2)) := by
      rw [← hfin]
      simp [RubricParser.listWriteBack]
    subst hp
    constructor
    · refine ⟨_, rfl, JValue.dmem_dset _ _ _ _ hmemKA,
        JValue.dmem_dset _ _ _ _ hmemSC, JValue.dmem_dset _ _ _ _ hmemCM,
        ?_⟩
      intro ka hget a hain
      rw [JValue.dget_dset_self] at hget
      rw [Option.some.injEq, JValue.arr.injEq] at hget
      subst hget
      exact hacts a hain
    · have hgetp : JValue.dget (JValue.dset kvs3 "key_actions" (.arr items2))
          "key_actions" = some (.arr items2) :=
        JValue.dget_dset_self kvs3 "key_actions" (.arr items2)
      simp only [RubricParser.validatePhase, JValue.pySetdefault,
        JValue.dsetdefault_of_mem _ _ _ (JValue.dmem_dset _ _ _ _ hmemKA),
        JValue.dsetdefault_of_mem _ _ _ (JValue.dmem_dset _ _ _ _ hmemSC),
        JValue.dsetdefault_of_mem _ _ _ (JValue.dmem_dset _ _ _ _ hmemCM),
        JValue.pyGetD, hgetp, Option.getD_some, JValue.pyIter, hfixacts,
        Bind.bind, Except.bind, pure, Except.pure,
        RubricParser.listWriteBack]
      rw [JValue.dset_self _ _ _ hgetp]
  case null =>
    subst hkaarr
    simp [JValue.pyIter] at h5
  case bool =>
    subst hkaarr
    simp [JValue.pyIter] at h5
  case num =>
    subst hkaarr
    simp [JValue.pyIter] at h5
  all_goals {
    -- the key-actions value is not a list: nothing is written back
    subst hkaarr
    have hitems : items = [] := by
      rcases items with _ | ⟨x, rest⟩
      · rfl
      · obtain ⟨s, hs⟩ := pyIter_non_arr_strings _ _ h5 (by simp) x
          (List.mem_cons_self _ _)
        subst hs
        rw [List.mapM_cons] at h6
        simp [RubricParser.validateAction, JValue.pySetdefault, Bind.bind,
          Except.bind] at h6
    subst hitems
    have hitems2 : items2 = [] := by
      simp only [List.mapM_nil, pure, Except.pure, Except.ok.injEq] at h6
      exact h6.symm
    subst hitems2
    have hp : p = .obj kvs3 := by
      rw [← hfin]
      simp [RubricParser.listWriteBack]
    subst hp
    constructor
    · refine ⟨_, rfl, hmemKA, hmemSC, hmemCM, ?_⟩
      intro ka hget a hain
      rw [hkamem] at hget
      simp at hget
    · simp only [JValue.pyIter, Except.ok.injEq] at h5
      simp only [RubricParser.validatePhase, JValue.pySetdefault,
        JValue.dsetdefault_of_mem _ _ _ hmemKA,
        JValue.dsetdefault_of_mem _ _ _ hmemSC,
        JValue.dsetdefault_of_mem _ _ _ hmemCM,
        JValue.pyGetD, hkamem, Option.getD_some, JValue.pyIter, h5,
        List.mapM_nil, Bind.bind, Except.bind, pure, Except.pure,
        RubricParser.listWriteBack]
  }

theorem mapM_validatePhase_post :
    ∀ (items items2 : List JValue),
      items.mapM RubricParser.validatePhase = .ok items2 →
      (∀ p ∈ items2, ∃ pkvs, p = .obj pkvs ∧
        JValue.dmem pkvs "key_actions" = true ∧
        JValue.dmem pkvs "success_criteria" = true ∧
        JValue.dmem pkvs "common_mistakes" = true ∧
        (∀ ka, JValue.dget pkvs "key_actions" = some (.arr ka) →
          ∀ a ∈ ka, ∃ akvs, a = .obj akvs ∧
            JValue.dmem akvs "importance" = true)) ∧
      items2.mapM RubricParser.validatePhase = .ok items2 := by
  intro items
  induction items with
  | nil =>
      intro items2 h
      simp only [List.mapM_nil] at h
      injection h with h
      subst h
      exact ⟨by simp, rfl⟩
  | cons p0 rest ih =>
      intro items2 h
      rw [List.mapM_cons] at h
      obtain ⟨p, hp, h⟩ := pybind_ok h
      obtain ⟨rest2, hrest, h⟩ := pybind_ok h
      injection h with h
      subst h
      obtain ⟨hshape, hfix⟩ := validatePhase_post p0 p hp
      obtain ⟨hshapes, hfixes⟩ := ih rest2 hrest
      constructor
      · intro x hx
        rcases List.mem_cons.1 hx with hx | hx
        · subst hx
          exact hshape
        · exact hshapes x hx
      · rw [List.mapM_cons, hfix, hfixes]
        rfl

theorem requiredFieldStep_post (r r2 : JValue) (f : String)
    (h : RubricParser.requiredFieldStep r f = .ok r2) :
    ∃ kvs kvs2, r = .obj kvs ∧ r2 = .obj kvs2 ∧
      (∃ val, JValue.dget kvs2 f = some val ∧ JValue.truthy val = true) ∧
      (∀ g, g ≠ f → JValue.dget kvs2 g = JValue.dget kvs g) ∧
      ((JValue.dget kvs f = none ∨ JValue.dget kvs f = some (.str "")) →
        JValue.dget kvs2 f = some (.str "unknown")) := by
  rcases r with _ | _ | _ | s | xs | kvs
  case null => simp [RubricParser.requiredFieldStep, JValue.pyContains,
    Bind.bind, Except.bind] at h
  case bool => simp [RubricParser.requiredFieldStep, JValue.pyContains,
    Bind.bind, Except.bind] at h
  case num => simp [RubricParser.requiredFieldStep, JValue.pyContains,
    Bind.bind, Except.bind] at h
  case str =>
    rcases hc : (splitFirst f.data s.data).isSome with _ | _ <;>
      simp [RubricParser.requiredFieldStep, JValue.pyContains, hc,
        JValue.pySetItem, JValue.pyGetItem, Bind.bind, Except.bind] at h
  case arr =>
    rcases hc : (xs.any (fun v => JValue.beq v (.str f))) with _ | _ <;>
      simp [RubricParser.requiredFieldStep, JValue.pyContains, hc,
        JValue.pySetItem, JValue.pyGetItem, Bind.bind, Except.bind] at h
  case obj =>
    rcases hmem : JValue.dget kvs f with _ | val0
    · -- field absent: it is set to 'unknown'
      have h2 : r2 = .obj (JValue.dset kvs f (.str "unknown")) := by
        simp only [RubricParser.requiredFieldStep, JValue.pyContains,
          JValue.dmem, hmem, Option.isSome_none, Bool.not_false, if_true,
          JValue.pySetItem, Bind.bind, Except.bind] at h
        injection h with h
        exact h.symm
      subst h2
      refine ⟨kvs, _, rfl, rfl, ⟨.str "unknown", JValue.dget_dset_self _ _ _,
        by simp [JValue.truthy]⟩, fun g hg => JValue.dget_dset_ne _ _ _ _ hg,
        fun _ => JValue.dget_dset_self _ _ _⟩
    · rcases htr : JValue.truthy val0 with _ | _
      · -- field present but falsy: it is set to 'unknown'
        have h2 : r2 = .obj (JValue.dset kvs f (.str "unknown")) := by
          simp only [RubricParser.requiredFieldStep, JValue.pyContains,
            JValue.dmem, hmem, Option.isSome_some, Bool.not_true,
            Bool.false_eq_true, if_false, JValue.pyGetItem, htr,
            JValue.pySetItem, Bind.bind, Except.bind] at h
          injection h with h
          exact h.symm
        subst h2
        refine ⟨kvs, _, rfl, rfl, ⟨.str "unknown",
          JValue.dget_dset_self _ _ _, by simp [JValue.truthy]⟩,
          fun g hg => JValue.dget_dset_ne _ _ _ _ hg,
          fun _ => JValue.dget_dset_self _ _ _⟩
      · -- field present and truthy: nothing changes
        have h2 : r2 = .obj kvs := by
          simp only [RubricParser.requiredFieldStep, JValue.pyContains,
            JValue.dmem, hmem, Option.isSome_some, Bool.not_true,
            Bool.false_eq_true, if_false, JValue.pyGetItem, htr, if_true,
            Bind.bind, Except.bind, pure, Except.pure] at h
          injection h with h
          exact h.symm
        subst h2
        refine ⟨kvs, kvs, rfl, rfl, ⟨val0, hmem, htr⟩, fun g _ => rfl, ?_⟩
        rintro (hcon | hcon)
        · rw [hmem] at hcon
          simp at hcon
        · rw [hmem] at hcon
          injection hcon with hcon
          subst hcon
          simp [JValue.truthy] at htr

theorem requiredFieldStep_fix (kvs : List (String × JValue)) (f : String)
    (val : JValue) (hget : JValue.dget kvs f = some val)
    (htr : JValue.truthy val = true) :
    RubricParser.requiredFieldStep (.obj kvs) f = .ok (.obj kvs) := by
  simp only [RubricParser.requiredFieldStep, JValue.pyContains, JValue.dmem,
    hget, Option.isSome_some, Bool.not_true, Bool.false_eq_true, if_false,
    JValue.pyGetItem, htr, if_true, Bind.bind, Except.bind, pure,
    Except.pure]

theorem requiredFields_fold_post (r r3 : JValue)
    (h : RubricParser.requiredFields.foldlM RubricParser.requiredFieldStep r =
      .ok r3) :
    ∃ kvs kvs3, r = .obj kvs ∧ r3 = .obj kvs3 ∧
      (∀ f ∈ RubricParser.requiredFields, ∃ val,
        JValue.dget kvs3 f = some val ∧ JValue.truthy val = true) ∧
      (∀ g, g ∉ RubricParser.requiredFields →
        JValue.dget kvs3 g = JValue.dget kvs g) ∧
      (∀ f ∈ RubricParser.requiredFields,
        (JValue.dget kvs f = none ∨ JValue.dget kvs f = some (.str "")) →
        JValue.dget kvs3 f = some (.str "unknown")) := by
  simp only [RubricParser.requiredFields, List.foldlM_cons, List.foldlM_nil,
    Bind.bind, Except.bind] at h
  obtain ⟨r1, h1, h⟩ := pybind_ok (by exact h)
  obtain ⟨r2, h2, h⟩ := pybind_ok h
  obtain ⟨ra, h3, hfin⟩ := pybind_ok h
  injection hfin with hfin
  subst hfin
  obtain ⟨kvs, kvs1, hk, hk1, hv1, hpres1, hdef1⟩ :=
    requiredFieldStep_post r r1 "title" h1
  subst hk
  subst hk1
  obtain ⟨kvs1b, kvs2, hk, hk2, hv2, hpres2, hdef2⟩ :=
    requiredFieldStep_post _ r2 "difficulty" h2
  rw [JValue.obj.injEq] at hk
  subst hk
  subst hk2
  obtain ⟨kvs2b, kvs3, hk, hk3, hv3, hpres3, hdef3⟩ :=
    requiredFieldStep_post _ _ "archetype" h3
  rw [JValue.obj.injEq] at hk
  subst hk
  subst hk3
  refine ⟨kvs, kvs3, rfl, rfl, ?_, ?_, ?_⟩
  · intro f hf
    have hf3 : f = "title" ∨ f = "difficulty" ∨ f = "archetype" := by
      simpa [RubricParser.requiredFields] using hf
    rcases hf3 with rfl | rfl | rfl
    · obtain ⟨val, hval, htr⟩ := hv1
      refine ⟨val, ?_, htr⟩
      rw [hpres3 "title" (by decide), hpres2 "title" (by decide)]
      exact hval
    · obtain ⟨val, hval, htr⟩ := hv2
      refine ⟨val, ?_, htr⟩
      rw [hpres3 "difficulty" (by decide)]
      exact hval
    · exact hv3
  · intro g hg
    have hg3 : ¬(g = "title" ∨ g = "difficulty" ∨ g = "archetype") := by
      simpa [RubricParser.requiredFields] using hg
    push_neg at hg3
    rw [hpres3 g hg3.2.2, hpres2 g hg3.2.1, hpres1 g hg3.1]
  · intro f hf
    have hf3 : f = "title" ∨ f = "difficulty" ∨ f = "archetype" := by
      simpa [RubricParser.requiredFields] using hf
    rcases hf3 with rfl | rfl | rfl
    · intro hc
      rw [hpres3 "title" (by decide), hpres2 "title" (by decide)]
      exact hdef1 hc
    · intro hc
      rw [hpres3 "difficulty" (by decide)]
      refine hdef2 ?_
      rwa [hpres1 "difficulty" (by decide)]
    · intro hc
      refine hdef3 ?_
      rwa [hpres2 "archetype" (by decide), hpres1 "archetype" (by decide)]

theorem requiredFields_fold_fix (kvs : List (String × JValue))
    (h : ∀ f ∈ RubricParser.requiredFields, ∃ val,
      JValue.dget kvs f = some val ∧ JValue.truthy val = true) :
    RubricParser.requiredFields.foldlM RubricParser.requiredFieldStep
      (.obj kvs) = .ok (.obj kvs) := by
  obtain ⟨v1, hg1, ht1⟩ := h "title" (by decide)
  obtain ⟨v2, hg2, ht2⟩ := h "difficulty" (by decide)
  obtain ⟨v3, hg3, ht3⟩ := h "archetype" (by decide)
  simp only [RubricParser.requiredFields, List.foldlM_cons, List.foldlM_nil,
    requiredFieldStep_fix kvs "title" v1 hg1 ht1,
    requiredFieldStep_fix kvs "difficulty" v2 hg2 ht2,
    requiredFieldStep_fix kvs "archetype" v3 hg3 ht3,
    Bind.bind, Except.bind]
  rfl

theorem benchKeys_fold_run :
    ∀ (keys : List String) (b : List (String × JValue)),
      ∃ b2, keys.foldlM (fun b k => JValue.pySetdefault b k JValue.null)
          (JValue.obj b) = .ok (.obj b2) ∧
        (∀ k, JValue.dget b2 k =
          match JValue.dget b k with
          | some w => some w
          | none => if k ∈ keys then some JValue.null else none) ∧
        (∀ k ∈ keys, JValue.dmem b2 k = true) := by
  intro keys
  induction keys with
  | nil =>
      intro b
      refine ⟨b, rfl, fun k => ?_, by simp⟩
      rcases JValue.dget b k with _ | w <;> simp
  | cons k1 rest ih =>
      intro b
      obtain ⟨b2, hrun, hspec, hmem⟩ := ih (JValue.dsetdefault b k1 .null)
      refine ⟨b2, ?_, ?_, ?_⟩
      · rw [List.foldlM_cons]
        have hh : JValue.pySetdefault (JValue.obj b) k1 JValue.null =
            .ok (.obj (JValue.dsetdefault b k1 .null)) := rfl
        simp only [hh, Bind.bind, Except.bind, hrun]
      · intro k
        rw [hspec k]
        by_cases hk : k = k1
        · subst hk
          rcases hbk : JValue.dget b k with _ | w
          · rw [JValue.dget_dsetdefault_absent b k .null hbk]
            simp
          · rw [JValue.dget_dsetdefault_mem b k k .null
              (by simp [JValue.dmem, hbk]), hbk]
        · rw [JValue.dget_dsetdefault_ne b k1 k .null hk]
          rcases JValue.dget b k with _ | w
          · simp only [List.mem_cons]
            rw [if_congr (Iff.symm (or_iff_right hk)) rfl rfl]
          · rfl
      · intro k hk
        rcases List.mem_cons.1 hk with hk | hk
        · subst hk
          rcases hbk : JValue.dget b2 k with _ | w
          · rw [hspec k] at hbk
            rcases hd : JValue.dget b k with _ | w2
            · rw [JValue.dget_dsetdefault_absent b k .null hd] at hbk
              simp at hbk
            · rw [JValue.dget_dsetdefault_mem b k k .null
                (by simp [JValue.dmem, hd]), hd] at hbk
              simp at hbk
          · simp [JValue.dmem, hbk]
        · exact hmem k hk

/-- The six keys installed by the `setdefault` block of
`_validate_rubric`, in source order. -/
def sixDefaultKeys : List String :=
  ["civilizations", "map_types", "phases", "decision_points", "counters",
   "key_insights"]

theorem validateCore_post (r c : JValue)
    (h : RubricParser.validateCore r = .ok c) :
    ∃ kvs ckvs, r = .obj kvs ∧ c = .obj ckvs ∧
      (∀ f ∈ RubricParser.requiredFields, ∃ val,
        JValue.dget ckvs f = some val ∧ JValue.truthy val = true) ∧
      (∀ f ∈ RubricParser.requiredFields,
        (JValue.dget kvs f = none ∨ JValue.dget kvs f = some (.str "")) →
        JValue.dget ckvs f = some (.str "unknown")) ∧
      (∀ k ∈ sixDefaultKeys, JValue.dmem ckvs k = true) ∧
      (∃ pv pitems, JValue.dget ckvs "phases" = some pv ∧
        JValue.pyIter pv = .ok pitems ∧
        pitems.mapM RubricParser.validatePhase = .ok pitems ∧
        (∀ parr, pv = .arr parr → pitems = parr)) ∧
      (∃ bkvs, JValue.dget ckvs "benchmarks" = some (.obj bkvs) ∧
        (∀ k ∈ RubricParser.benchmarkKeys, JValue.dmem bkvs k = true) ∧
        (JValue.dget kvs "benchmarks" = none →
          ∀ k ∈ RubricParser.benchmarkKeys,
            JValue.dget bkvs k = some .null) ∧
        (∀ b0, JValue.dget kvs "benchmarks" = some (.obj b0) →
          ∀ k ∈ RubricParser.benchmarkKeys,
            JValue.dget bkvs k = some ((JValue.dget b0 k).getD .null))) := by
  simp only [RubricParser.validateCore, Bind.bind, Except.bind] at h
  replace h := pybind_ok (by exact h)
  obtain ⟨r1, h1, h⟩ := h
  replace h := pybind_ok h
  obtain ⟨r2, h2, h⟩ := h
  replace h := pybind_ok h
  obtain ⟨r3, h3, h⟩ := h
  replace h := pybind_ok h
  obtain ⟨r4, h4, h⟩ := h
  replace h := pybind_ok h
  obtain ⟨r5, h5, h⟩ := h
  replace h := pybind_ok h
  obtain ⟨r6, h6, h⟩ := h
  replace h := pybind_ok h
  obtain ⟨r7, h7, h⟩ := h
  replace h := pybind_ok h
  obtain ⟨phasesVal, h8, h⟩ := h
  replace h := pybind_ok h
  obtain ⟨items, h9, h⟩ := h
  replace h := pybind_ok h
  obtain ⟨items2, h10, h⟩ := h
  replace h := pybind_ok h
  obtain ⟨r11, h11, h⟩ := h
  replace h := pybind_ok h
  obtain ⟨bVal, h12, h⟩ := h
  replace h := pybind_ok h
  obtain ⟨bVal2, h13, hfin⟩ := h
  obtain ⟨kvs, kvs1, hk, hk1, hreq, hpres1, hdef1⟩ :=
    requiredFields_fold_post r r1 h1
  subst hk
  subst hk1
  obtain ⟨k1b, he, hk2⟩ := pySetdefault_ok _ _ _ _ h2
  rw [JValue.obj.injEq] at he
  subst he
  subst hk2
  obtain ⟨k2b, he, hk3⟩ := pySetdefault_ok _ _ _ _ h3
  rw [JValue.obj.injEq] at he
  subst he
  subst hk3
  obtain ⟨k3b, he, hk4⟩ := pySetdefault_ok _ _ _ _ h4
  rw [JValue.obj.injEq] at he
  subst he
  subst hk4
  obtain ⟨k4b, he, hk5⟩ := pySetdefault_ok _ _ _ _ h5
  rw [JValue.obj.injEq] at he
  subst he
  subst hk5
  obtain ⟨k5b, he, hk6⟩ := pySetdefault_ok _ _ _ _ h6
  rw [JValue.obj.injEq] at he
  subst he
  subst hk6
  obtain ⟨k6b, he, hk7⟩ := pySetdefault_ok _ _ _ _ h7
  rw [JValue.obj.injEq] at he
  subst he
  subst hk7
  set kvs7 := JValue.dsetdefault (JValue.dsetdefault (JValue.dsetdefault
    (JValue.dsetdefault (JValue.dsetdefault (JValue.dsetdefault kvs1
      "civilizations" (.arr [])) "map_types" (.arr [.str "any"]))
      "phases" (.arr [])) "decision_points" (.arr []))
      "counters" (.obj [])) "key_insights" (.arr []) with hkvs7
  obtain ⟨k7b, he, hpv⟩ := pyGetD_ok _ _ _ _ h8
  rw [JValue.obj.injEq] at he
  rw [← he] at hpv
  clear he
  have hpvmem : JValue.dget kvs7 "phases" = some phasesVal := by
    have hm : JValue.dmem kvs7 "phases" = true := by
      rw [hkvs7]
      exact JValue.dmem_dsetdefault _ _ _ _
        (JValue.dmem_dsetdefault _ _ _ _
          (JValue.dmem_dsetdefault _ _ _ _
            (JValue.dmem_dsetdefault_self _ _ _)))
    rcases hd : JValue.dget kvs7 "phases" with _ | w
    · rw [JValue.dmem, hd] at hm
      simp at hm
    · rw [hd] at hpv
      simp only [Option.getD_some] at hpv
      rw [hpv]
  obtain ⟨hph_shapes, hph_fix⟩ := mapM_validatePhase_post items items2 h10
  -- the phases write-back
  have hwb : ∃ kvs8, RubricParser.listWriteBack (.obj kvs7) "phases"
        phasesVal items2 = .obj kvs8 ∧
      (∃ pv2 pitems, JValue.dget kvs8 "phases" = some pv2 ∧
        JValue.pyIter pv2 = .ok pitems ∧
        pitems.mapM RubricParser.validatePhase = .ok pitems ∧
        (∀ parr, pv2 = .arr parr → pitems = parr)) ∧
      (∀ g, g ≠ "phases" → JValue.dget kvs8 g = JValue.dget kvs7 g) ∧
      (∀ g, JValue.dmem kvs7 g = true → JValue.dmem kvs8 g = true) := by
    rcases hpva : phasesVal with _ | _ | _ | _ | parr | _
    case arr =>
      subst hpva
      refine ⟨JValue.dset kvs7 "phases" (.arr items2), by
        simp [RubricParser.listWriteBack], ?_, ?_, ?_⟩
      · have hit : items = parr := by
          rw [JValue.pyIter] at h9
          injection h9 with h9
          exact h9.symm
        subst hit
        exact ⟨.arr items2, items2, JValue.dget_dset_self _ _ _, rfl,
          hph_fix, fun parr2 hp2 => by injection hp2⟩
      · exact fun g hg => JValue.dget_dset_ne _ _ _ _ hg
      · exact fun g hg => JValue.dmem_dset _ _ _ _ hg
    case null =>
      subst hpva
      simp [JValue.pyIter] at h9
    case bool =>
      subst hpva
      simp [JValue.pyIter] at h9
    case num =>
      subst hpva
      simp [JValue.pyIter] at h9
    all_goals {
      subst hpva
      have hitems_nil : items = [] := by
        rcases items with _ | ⟨x, rest⟩
        · rfl
        · obtain ⟨s, hs⟩ := pyIter_non_arr_strings _ _ h9 (by simp) x
            (List.mem_cons_self _ _)
          subst hs
          rw [List.mapM_cons] at h10
          simp [RubricParser.validatePhase, JValue.pySetdefault,
            Bind.bind, Except.bind] at h10
      subst hitems_nil
      have hitems2_nil : items2 = [] := by
        simp only [List.mapM_nil] at h10
        injection h10 with h10
        exact h10.symm
      subst hitems2_nil
      refine ⟨kvs7, by simp [RubricParser.listWriteBack], ?_, fun g _ => rfl,
        fun g hg => hg⟩
      exact ⟨_, [], hpvmem, h9, rfl, fun parr2 hp2 => by simp at hp2⟩
    }
  obtain ⟨kvs8, hwbeq, hph8, hpres8, hmem8⟩ := hwb
  rw [hwbeq] at h11
  obtain ⟨k8b, he, hk11⟩ := pySetdefault_ok _ _ _ _ h11
  rw [JValue.obj.injEq] at he
  subst he
  subst hk11
  set kvs9 := JValue.dsetdefault kvs8 "benchmarks" (.obj []) with hkvs9
  rcases hbv : JValue.pyGetItem (.obj kvs9) "benchmarks" with e | bValx
  · rw [hbv] at h12
    simp at h12
  · rw [hbv] at h12
    injection h12 with h12
    rw [h12] at hbv
    clear h12
    have hbval : JValue.dget kvs9 "benchmarks" = some bVal := by
      simp only [JValue.pyGetItem] at hbv
      rcases hd : JValue.dget kvs9 "benchmarks" with _ | w
      · rw [hd] at hbv
        simp at hbv
      · rw [hd] at hbv
        injection hbv with hbv
        rw [hbv]
    -- the benchmark fold succeeds only on a dict
    rcases hbva : bVal with _ | _ | _ | _ | _ | b0kvs
    case null =>
      subst hbva
      simp [RubricParser.benchmarkKeys, List.foldlM_cons,
        JValue.pySetdefault, Bind.bind, Except.bind] at h13
    case bool =>
      subst hbva
      simp [RubricParser.benchmarkKeys, List.foldlM_cons,
        JValue.pySetdefault, Bind.bind, Except.bind] at h13
    case num =>
      subst hbva
      simp [RubricParser.benchmarkKeys, List.foldlM_cons,
        JValue.pySetdefault, Bind.bind, Except.bind] at h13
    case str =>
      subst hbva
      simp [RubricParser.benchmarkKeys, List.foldlM_cons,
        JValue.pySetdefault, Bind.bind, Except.bind] at h13
    case arr =>
      subst hbva
      simp [RubricParser.benchmarkKeys, List.foldlM_cons,
        JValue.pySetdefault, Bind.bind, Except.bind] at h13
    subst hbva
    obtain ⟨b2, hrunb, hbspec, hbmem⟩ :=
      benchKeys_fold_run RubricParser.benchmarkKeys b0kvs
    rw [hrunb] at h13
    injection h13 with h13
    subst h13
    obtain ⟨k9b, he, hcfin⟩ := pySetItem_ok _ _ _ _ hfin
    rw [JValue.obj.injEq] at he
    subst he
    subst hcfin
    set ckvs := JValue.dset kvs9 "benchmarks" (.obj b2) with hckvs
    -- preservation of a key other than phases/benchmarks back to kvs1
    have hpresAll : ∀ g, g ≠ "phases" → g ≠ "benchmarks" →
        g ∉ sixDefaultKeys → JValue.dget ckvs g = JValue.dget kvs1 g := by
      intro g hg1 hg2 hg3
      have hne : ∀ x, x ∈ sixDefaultKeys → g ≠ x :=
        fun x hx he => hg3 (he ▸ hx)
      rw [hckvs, JValue.dget_dset_ne _ _ _ _ hg2, hkvs9,
        JValue.dget_dsetdefault_ne _ _ _ _ hg2, hpres8 g hg1, hkvs7,
        JValue.dget_dsetdefault_ne _ _ _ _ (hne "key_insights" (by decide)),
        JValue.dget_dsetdefault_ne _ _ _ _ (hne "counters" (by decide)),
        JValue.dget_dsetdefault_ne _ _ _ _
          (hne "decision_points" (by decide)),
        JValue.dget_dsetdefault_ne _ _ _ _ (hne "phases" (by decide)),
        JValue.dget_dsetdefault_ne _ _ _ _ (hne "map_types" (by decide)),
        JValue.dget_dsetdefault_ne _ _ _ _
          (hne "civilizations" (by decide))]
    have hreqpres : ∀ f ∈ RubricParser.requiredFields,
        JValue.dget ckvs f = JValue.dget kvs1 f := by
      intro f hf
      have hf3 : f = "title" ∨ f = "difficulty" ∨ f = "archetype" := by
        simpa [RubricParser.requiredFields] using hf
      rcases hf3 with rfl | rfl | rfl <;>
        exact hpresAll _ (by decide) (by decide) (by decide)
    refine ⟨kvs, ckvs, rfl, rfl, ?_, ?_, ?_, ?_, ?_⟩
    · intro f hf
      rw [hreqpres f hf]
      exact hreq f hf
    · intro f hf hcon
      rw [hreqpres f hf]
      exact hdef1 f hf hcon
    · intro k hk
      have hk6 : k = "civilizations" ∨ k = "map_types" ∨ k = "phases" ∨
          k = "decision_points" ∨ k = "counters" ∨ k = "key_insights" := by
        simpa [sixDefaultKeys] using hk
      have hmem7 : JValue.dmem kvs7 k = true := by
        rw [hkvs7]
        rcases hk6 with rfl | rfl | rfl | rfl | rfl | rfl
        · exact JValue.dmem_dsetdefault _ _ _ _
            (JValue.dmem_dsetdefault _ _ _ _ (JValue.dmem_dsetdefault _ _ _ _
              (JValue.dmem_dsetdefault _ _ _ _ (JValue.dmem_dsetdefault _ _ _ _
                (JValue.dmem_dsetdefault_self _ _ _)))))
        · exact JValue.dmem_dsetdefault _ _ _ _
            (JValue.dmem_dsetdefault _ _ _ _ (JValue.dmem_dsetdefault _ _ _ _
              (JValue.dmem_dsetdefault _ _ _ _
                (JValue.dmem_dsetdefault_self _ _ _))))
        · exact JValue.dmem_dsetdefault _ _ _ _
            (JValue.dmem_dsetdefault _ _ _ _ (JValue.dmem_dsetdefault _ _ _ _
              (JValue.dmem_dsetdefault_self _ _ _)))
        · exact JValue.dmem_dsetdefault _ _ _ _
            (JValue.dmem_dsetdefault _ _ _ _
              (JValue.dmem_dsetdefault_self _ _ _))
        · exact JValue.dmem_dsetdefault _ _ _ _
            (JValue.dmem_dsetdefault_self _ _ _)
        · exact JValue.dmem_dsetdefault_self _ _ _
      rw [hckvs]
      refine JValue.dmem_dset _ _ _ _ ?_
      rw [hkvs9]
      exact JValue.dmem_dsetdefault _ _ _ _ (hmem8 k hmem7)
    · obtain ⟨pv2, pitems, hg, hit, hfix2, hparr⟩ := hph8
      refine ⟨pv2, pitems, ?_, hit, hfix2, hparr⟩
      rw [hckvs, JValue.dget_dset_ne _ _ _ _ (by decide), hkvs9,
        JValue.dget_dsetdefault_ne _ _ _ _ (by decide)]
      exact hg
    · refine ⟨b2, by rw [hckvs]; exact JValue.dget_dset_self _ _ _,
        hbmem, ?_, ?_⟩
      · -- benchmarks absent in the input: every key defaults to None
        intro habs k hk
        have hb8 : JValue.dget kvs8 "benchmarks" = none := by
          rw [hpres8 _ (by decide), hkvs7,
            JValue.dget_dsetdefault_ne _ _ _ _ (by decide),
            JValue.dget_dsetdefault_ne _ _ _ _ (by decide),
            JValue.dget_dsetdefault_ne _ _ _ _ (by decide),
            JValue.dget_dsetdefault_ne _ _ _ _ (by decide),
            JValue.dget_dsetdefault_ne _ _ _ _ (by decide),
            JValue.dget_dsetdefault_ne _ _ _ _ (by decide),
            hpres1 _ (by decide)]
          exact habs
        have hb9 : JValue.dget kvs9 "benchmarks" = some (.obj []) := by
          rw [hkvs9]
          exact JValue.dget_dsetdefault_absent _ _ _ hb8
        rw [hbval] at hb9
        injection hb9 with hb9
        rw [JValue.obj.injEq] at hb9
        subst hb9
        rw [hbspec k]
        simp [JValue.dget, hk]
      · -- benchmarks present as a dict: present entries kept, missing
        -- keys default to None
        intro b0 hpres k hk
        have hb8 : JValue.dget kvs8 "benchmarks" = some (.obj b0) := by
          rw [hpres8 _ (by decide), hkvs7,
            JValue.dget_dsetdefault_ne _ _ _ _ (by decide),
            JValue.dget_dsetdefault_ne _ _ _ _ (by decide),
            JValue.dget_dsetdefault_ne _ _ _ _ (by decide),
            JValue.dget_dsetdefault_ne _ _ _ _ (by decide),
            JValue.dget_dsetdefault_ne _ _ _ _ (by decide),
            JValue.dget_dsetdefault_ne _ _ _ _ (by decide),
            hpres1 _ (by decide)]
          exact hpres
        have hb9 : JValue.dget kvs9 "benchmarks" = some (.obj b0) := by
          rw [hkvs9, JValue.dget_dsetdefault_mem _ _ _ _
            (by simp [JValue.dmem, hb8])]
          exact hb8
        rw [hbval] at hb9
        injection hb9 with hb9
        rw [JValue.obj.injEq] at hb9
        subst hb9
        rw [hbspec k]
        rcases hbw : JValue.dget b0kvs k with _ | w
        · simp [hk]
        · simp

theorem benchKeys_fold_fix :
    ∀ (keys : List String) (b : List (String × JValue)),
      (∀ k ∈ keys, JValue.dmem b k = true) →
      keys.foldlM (fun b k => JValue.pySetdefault b k JValue.null)
        (JValue.obj b) = .ok (.obj b) := by
  intro keys
  induction keys with
  | nil => intro b _; rfl
  | cons k1 rest ih =>
      intro b hmem
      rw [List.foldlM_cons]
      have hh : JValue.pySetdefault (JValue.obj b) k1 JValue.null =
          .ok (.obj b) := by
        simp only [JValue.pySetdefault,
          JValue.dsetdefault_of_mem _ _ _ (hmem k1 (List.mem_cons_self _ _))]
      simp only [hh, Bind.bind, Except.bind,
        ih b (fun k hk => hmem k (List.mem_cons_of_mem _ hk))]

theorem validateCore_fix (kvs : List (String × JValue))
    (hreq : ∀ f ∈ RubricParser.requiredFields, ∃ val,
      JValue.dget kvs f = some val ∧ JValue.truthy val = true)
    (hsix : ∀ k ∈ sixDefaultKeys, JValue.dmem kvs k = true)
    (hph : ∃ pv pitems, JValue.dget kvs "phases" = some pv ∧
      JValue.pyIter pv = .ok pitems ∧
      pitems.mapM RubricParser.validatePhase = .ok pitems ∧
      (∀ parr, pv = .arr parr → pitems = parr))
    (hb : ∃ bkvs, JValue.dget kvs "benchmarks" = some (.obj bkvs) ∧
      ∀ k ∈ RubricParser.benchmarkKeys, JValue.dmem bkvs k = true) :
    RubricParser.validateCore (.obj kvs) = .ok (.obj kvs) := by
  obtain ⟨pv, pitems, hpg, hpi, hpm, hparr⟩ := hph
  obtain ⟨bkvs, hbg, hbmem⟩ := hb
  have hwb : RubricParser.listWriteBack (.obj kvs) "phases" pv pitems =
      .obj kvs := by
    rcases hpva : pv with _ | _ | _ | _ | parr | _
    case arr =>
      have hit : pitems = parr := hparr parr hpva
      subst hit
      simp only [RubricParser.listWriteBack]
      rw [JValue.dset_self kvs "phases" _ (by rw [← hpva]; exact hpg)]
    all_goals simp [RubricParser.listWriteBack]
  have hbmem' : JValue.dmem kvs "benchmarks" = true := by
    simp [JValue.dmem, hbg]
  have hsd : ∀ (k : String) (v : JValue), JValue.dmem kvs k = true →
      JValue.pySetdefault (JValue.obj kvs) k v = .ok (.obj kvs) := by
    intro k v hm
    simp only [JValue.pySetdefault, JValue.dsetdefault_of_mem _ _ _ hm]
  simp only [RubricParser.validateCore, requiredFields_fold_fix kvs hreq,
    hsd "civilizations" _ (hsix _ (by decide)),
    hsd "map_types" _ (hsix _ (by decide)),
    hsd "phases" _ (hsix _ (by decide)),
    hsd "decision_points" _ (hsix _ (by decide)),
    hsd "counters" _ (hsix _ (by decide)),
    hsd "key_insights" _ (hsix _ (by decide)),
    hsd "benchmarks" _ hbmem',
    JValue.pyGetD, hpg, Option.getD_some, hpi, hpm, hwb,
    pyGetItem_obj kvs "benchmarks" _ hbg,
    benchKeys_fold_fix RubricParser.benchmarkKeys bkvs hbmem,
    JValue.pySetItem, Bind.bind, Except.bind]
  rw [JValue.dset_self kvs "benchmarks" _ hbg]

/-- C6: default-filling is idempotent up to the `_meta` stamp: a second
run of `_validate_rubric` on its own output succeeds and only rewrites
`_meta`, every other key keeping its value. -/
theorem c6_validate_idempotent (now now2 : String) (r r1 : JValue)
    (h : RubricParser.validateRubric now r = .ok r1) :
    ∃ kvs1, r1 = .obj kvs1 ∧
      RubricParser.validateRubric now2 r1 =
        .ok (.obj (JValue.dset kvs1 "_meta" (RubricParser.metaObj now2))) ∧
      (∀ k, k ≠ "_meta" →
        JValue.dget (JValue.dset kvs1 "_meta"
          (RubricParser.metaObj now2)) k = JValue.dget kvs1 k) := by
  simp only [RubricParser.validateRubric, Bind.bind, Except.bind] at h
  replace h := pybind_ok (by exact h)
  obtain ⟨c, hc, h⟩ := h
  obtain ⟨ckvs, he, hr1⟩ := pySetItem_ok _ _ _ _ h
  subst he
  subst hr1
  obtain ⟨kvs, ckvs2, _, he, hreq, _, hsix, hph, hbench⟩ :=
    validateCore_post r _ hc
  rw [JValue.obj.injEq] at he
  subst he
  set kvs1 := JValue.dset ckvs "_meta" (RubricParser.metaObj now) with hkvs1
  have hmeta_ne_req : ∀ f ∈ RubricParser.requiredFields, f ≠ "_meta" := by
    decide
  have hmeta_ne_six : ∀ k ∈ sixDefaultKeys, k ≠ "_meta" := by decide
  have hreq1 : ∀ f ∈ RubricParser.requiredFields, ∃ val,
      JValue.dget kvs1 f = some val ∧ JValue.truthy val = true := by
    intro f hf
    rw [hkvs1, JValue.dget_dset_ne _ _ _ _ (hmeta_ne_req f hf)]
    exact hreq f hf
  have hsix1 : ∀ k ∈ sixDefaultKeys, JValue.dmem kvs1 k = true := by
    intro k hk
    rw [hkvs1]
    exact JValue.dmem_dset _ _ _ _ (hsix k hk)
  have hph1 : ∃ pv pitems, JValue.dget kvs1 "phases" = some pv ∧
      JValue.pyIter pv = .ok pitems ∧
      pitems.mapM RubricParser.validatePhase = .ok pitems ∧
      (∀ parr, pv = .arr parr → pitems = parr) := by
    obtain ⟨pv, pitems, hg, hi, hm, hp⟩ := hph
    exact ⟨pv, pitems, by
      rw [hkvs1, JValue.dget_dset_ne _ _ _ _ (by decide)]
      exact hg, hi, hm, hp⟩
  have hb1 : ∃ bkvs, JValue.dget kvs1 "benchmarks" = some (.obj bkvs) ∧
      ∀ k ∈ RubricParser.benchmarkKeys, JValue.dmem bkvs k = true := by
    obtain ⟨bkvs, hg, hm, _, _⟩ := hbench
    exact ⟨bkvs, by
      rw [hkvs1, JValue.dget_dset_ne _ _ _ _ (by decide)]
      exact hg, hm⟩
  refine ⟨kvs1, rfl, ?_, fun k hk => JValue.dget_dset_ne _ _ _ _ hk⟩
  simp only [RubricParser.validateRubric, Bind.bind, Except.bind,
    validateCore_fix kvs1 hreq1 hsix1 hph1 hb1, JValue.pySetItem]

/-- The output of `_validate_rubric` on the C6 witness input. -/
def c6r1 : JValue := .obj [("title", .str "T"),
  ("difficulty", .str "unknown"), ("archetype", .str "unknown"),
  ("civilizations", .arr []), ("map_types", .arr [.str "any"]),
  ("phases", .arr []), ("decision_points", .arr []), ("counters", .obj []),
  ("key_insights", .arr []),
  ("benchmarks", .obj [("feudal_age", .null), ("castle_age", .null),
    ("imperial_age", .null), ("second_tc", .null), ("third_tc", .null),
    ("villagers_at_10min", .null), ("villagers_at_castle", .null)]),
  ("_meta", RubricParser.metaObj "NOW")]

/-- Witness for C6 at a concrete rubric. -/
theorem c6_validate_idempotent_witness :
    RubricParser.validateRubric "NOW" (.obj [("title", .str "T")]) =
      .ok c6r1 ∧
    ∃ kvs1, c6r1 = .obj kvs1 ∧
      RubricParser.validateRubric "NOW2" c6r1 =
        .ok (.obj (JValue.dset kvs1 "_meta" (RubricParser.metaObj "NOW2"))) ∧
      (∀ k, k ≠ "_meta" →
        JValue.dget (JValue.dset kvs1 "_meta"
          (RubricParser.metaObj "NOW2")) k = JValue.dget kvs1 k) :=
  ⟨rfl, c6_validate_idempotent "NOW" "NOW2"
    (.obj [("title", .str "T")]) c6r1 rfl⟩

/-! ## C5: `_validate_rubric` never raises `ValueError` -/

/-- The computation does not fail with a `ValueError`. -/
def noVE {α : Type} (x : Except PyErr α) : Prop :=
  ∀ msg, x ≠ .error (PyErr.valueError msg)

theorem noVE_ok {α : Type} (a : α) : noVE (Except.ok a : Except PyErr α) :=
  fun _ h => Except.noConfusion h

theorem noVE_bind {α β : Type} {x : Except PyErr α} {f : α → Except PyErr β}
    (hx : noVE x) (hf : ∀ a, noVE (f a)) : noVE (x >>= f) := by
  cases x with
  | error e =>
      intro msg h
      simp only [Bind.bind, Except.bind] at h
      injection h with he
      exact hx msg (by rw [he])
  | ok a =>
      intro msg h
      simp only [Bind.bind, Except.bind] at h
      exact hf a msg h

theorem noVE_ite {α : Type} (b : Bool) {x y : Except PyErr α}
    (hx : noVE x) (hy : noVE y) : noVE (if b then x else y) := by
  cases b
  · exact hy
  · exact hx

theorem noVE_foldlM {α β : Type} (f : β → α → Except PyErr β)
    (hf : ∀ b a, noVE (f b a)) :
    ∀ (l : List α) (b : β), noVE (l.foldlM f b) := by
  intro l
  induction l with
  | nil => intro b; exact noVE_ok b
  | cons x xs ih =>
      intro b
      simp only [List.foldlM_cons]
      exact noVE_bind (hf b x) (fun b2 => ih b2)

theorem noVE_mapM {α β : Type} (f : α → Except PyErr β)
    (hf : ∀ a, noVE (f a)) : ∀ (l : List α), noVE (l.mapM f) := by
  intro l
  induction l with
  | nil => exact noVE_ok []
  | cons x xs ih =>
      simp only [List.mapM_cons]
      exact noVE_bind (hf x)
        (fun b => noVE_bind ih (fun bs => noVE_ok (b :: bs)))

theorem noVE_pyContains (x : JValue) (k : String) :
    noVE (JValue.pyContains x k) := by
  intro msg h
  rcases x <;> simp only [JValue.pyContains] at h <;> simp at h

theorem noVE_pyGetItem (x : JValue) (k : String) :
    noVE (JValue.pyGetItem x k) := by
  intro msg h
  rcases x <;> simp only [JValue.pyGetItem] at h <;>
    first
    | simp at h
    | (split at h <;> simp at h)

theorem noVE_pySetItem (x : JValue) (k : String) (v : JValue) :
    noVE (JValue.pySetItem x k v) := by
  intro msg h
  rcases x <;> simp only [JValue.pySetItem] at h <;> simp at h

theorem noVE_pySetdefault (x : JValue) (k : String) (v : JValue) :
    noVE (JValue.pySetdefault x k v) := by
  intro msg h
  rcases x <;> simp only [JValue.pySetdefault] at h <;> simp at h

theorem noVE_pyGetD (x : JValue) (k : String) (dflt : JValue) :
    noVE (JValue.pyGetD x k dflt) := by
  intro msg h
  rcases x <;> simp only [JValue.pyGetD] at h <;> simp at h

theorem noVE_pyIter (x : JValue) : noVE (JValue.pyIter x) := by
  intro msg h
  rcases x <;> simp only [JValue.pyIter] at h <;> simp at h

theorem noVE_requiredFieldStep (r : JValue) (f : String) :
    noVE (RubricParser.requiredFieldStep r f) := by
  unfold RubricParser.requiredFieldStep
  refine noVE_bind (noVE_pyContains r f) (fun c => ?_)
  refine noVE_ite _ (noVE_pySetItem r f _) ?_
  refine noVE_bind (noVE_pyGetItem r f) (fun v => ?_)
  exact noVE_ite _ (noVE_ok r) (noVE_pySetItem r f _)

theorem noVE_validateAction (a : JValue) :
    noVE (RubricParser.validateAction a) :=
  noVE_pySetdefault a "importance" (.str "important")

theorem noVE_validatePhase (p : JValue) :
    noVE (RubricParser.validatePhase p) := by
  unfold RubricParser.validatePhase
  refine noVE_bind (noVE_pySetdefault p _ _) (fun p1 => ?_)
  refine noVE_bind (noVE_pySetdefault p1 _ _) (fun p2 => ?_)
  refine noVE_bind (noVE_pySetdefault p2 _ _) (fun p3 => ?_)
  refine noVE_bind (noVE_pyGetD p3 _ _) (fun ka => ?_)
  refine noVE_bind (noVE_pyIter ka) (fun items => ?_)
  refine noVE_bind (noVE_mapM _ noVE_validateAction items) (fun items2 => ?_)
  exact noVE_ok _

theorem noVE_validateCore (r : JValue) :
    noVE (RubricParser.validateCore r) := by
  unfold RubricParser.validateCore
  refine noVE_bind
    (noVE_foldlM _ noVE_requiredFieldStep RubricParser.requiredFields r)
    (fun r1 => ?_)
  refine noVE_bind (noVE_pySetdefault r1 _ _) (fun r2 => ?_)
  refine noVE_bind (noVE_pySetdefault r2 _ _) (fun r3 => ?_)
  refine noVE_bind (noVE_pySetdefault r3 _ _) (fun r4 => ?_)
  refine noVE_bind (noVE_pySetdefault r4 _ _) (fun r5 => ?_)
  refine noVE_bind (noVE_pySetdefault r5 _ _) (fun r6 => ?_)
  refine noVE_bind (noVE_pySetdefault r6 _ _) (fun r7 => ?_)
  refine noVE_bind (noVE_pyGetD r7 _ _) (fun pv => ?_)
  refine noVE_bind (noVE_pyIter pv) (fun items => ?_)
  refine noVE_bind (noVE_mapM _ noVE_validatePhase items) (fun items2 => ?_)
  refine noVE_bind (noVE_pySetdefault _ _ _) (fun r8 => ?_)
  refine noVE_bind (noVE_pyGetItem r8 _) (fun bv => ?_)
  refine noVE_bind
    (noVE_foldlM _ (fun b k => noVE_pySetdefault b k .null) _ bv)
    (fun bv2 => ?_)
  exact noVE_pySetItem r8 _ bv2

theorem noVE_validateRubric (now : String) (r : JValue) :
    noVE (RubricParser.validateRubric now r) := by
  unfold RubricParser.validateRubric
  exact noVE_bind (noVE_validateCore r)
    (fun r1 => noVE_pySetItem r1 _ _)

/-- `json.loads` restricted to the input `"[]"` (every other string is a
decode error), for the C5 counterexample. -/
def loadsC5 : String → Option JValue :=
  fun s => if s = "[]" then some (.arr []) else none

/-- C5 counterexample: `"[]"` is valid JSON, yet `parse_rubric_json`
raises: the required-fields loop does `rubric['title'] = 'unknown'` on a
list, a `TypeError`.  So "for every input that is valid JSON it returns
the validated rubric without raising any error" is false. -/
theorem c5_claim_counterexample :
    loadsC5 (RubricParser.preprocess "[]") = some (.arr []) ∧
    RubricParser.parseRubricJson loadsC5 "NOW" "[]" =
      .error (.typeError "list indices must be integers") :=
  ⟨rfl, rfl⟩

/-- C5 (amended): `parse_rubric_json` raises `ValueError` exactly when the
preprocessed input (fence body extraction plus strip) is not valid JSON;
on valid JSON it returns `_validate_rubric` of the decoded value — which
can itself raise, but never a `ValueError`. -/
theorem c5_parse_errors (loads : String → Option JValue) (now s : String) :
    ((∃ msg, RubricParser.parseRubricJson loads now s =
        .error (.valueError msg)) ↔
      loads (RubricParser.preprocess s) = none) ∧
    (∀ v, loads (RubricParser.preprocess s) = some v →
      RubricParser.parseRubricJson loads now s =
        RubricParser.validateRubric now v) := by
  have hred : ∀ v, loads (RubricParser.preprocess s) = some v →
      RubricParser.parseRubricJson loads now s =
        RubricParser.validateRubric now v := by
    intro v hl
    simp only [RubricParser.parseRubricJson, hl]
  refine ⟨⟨?_, ?_⟩, hred⟩
  · rintro ⟨msg, h⟩
    rcases hl : loads (RubricParser.preprocess s) with _ | v
    · rfl
    · rw [hred v hl] at h
      exact absurd h (noVE_validateRubric now v msg)
  · intro hl
    exact ⟨"Invalid JSON in LLM response", by
      simp only [RubricParser.parseRubricJson, hl]⟩

/-- `json.loads` restricted to the input `"\x7b\x7d"` (the empty JSON
object), for the C5 witness. -/
def loadsC5w : String → Option JValue :=
  fun s => if s = "\x7b\x7d" then some (.obj []) else none

/-- Witness for C5 at the concrete input `"\x7b\x7d"`. -/
theorem c5_parse_errors_witness :
    RubricParser.parseRubricJson loadsC5w "NOW" "\x7b\x7d" =
      RubricParser.validateRubric "NOW" (.obj []) :=
  (c5_parse_errors loadsC5w "NOW" "\x7b\x7d").2 (.obj []) rfl

/-- When decoding succeeds, `parse_rubric_json` is `_validate_rubric` of
the decoded value. -/
theorem parseRubricJson_loads_some (loads : String → Option JValue)
    (now s : String) (v : JValue)
    (hl : loads (RubricParser.preprocess s) = some v) :
    RubricParser.parseRubricJson loads now s =
      RubricParser.validateRubric now v := by
  simp only [RubricParser.parseRubricJson, hl]

/-- C2: every rubric successfully returned by `parse_rubric_json` has
truthy `title`/`difficulty`/`archetype` (set to `'unknown'` when absent or
empty in the decoded JSON), carries the six defaulted container fields, a
`benchmarks` dict with all seven benchmark keys (set to `None` when the
decoded JSON had no benchmarks), and — when `phases` is a list — every
phase is a dict with `key_actions`/`success_criteria`/`common_mistakes`
and every key action of a list-valued `key_actions` is a dict with an
`importance` field, `validate` defaulting a missing `importance` to
`'important'`. -/
theorem c2_parse_post (loads : String → Option JValue) (now s : String)
    (out : JValue)
    (h : RubricParser.parseRubricJson loads now s = .ok out) :
    ∃ v vkvs kvs, loads (RubricParser.preprocess s) = some v ∧
      v = .obj vkvs ∧ out = .obj kvs ∧
      (∀ f ∈ RubricParser.requiredFields, ∃ val,
        JValue.dget kvs f = some val ∧ JValue.truthy val = true) ∧
      (∀ f ∈ RubricParser.requiredFields,
        (JValue.dget vkvs f = none ∨ JValue.dget vkvs f = some (.str "")) →
        JValue.dget kvs f = some (.str "unknown")) ∧
      (∀ k ∈ sixDefaultKeys, JValue.dmem kvs k = true) ∧
      (∃ bkvs, JValue.dget kvs "benchmarks" = some (.obj bkvs) ∧
        (∀ k ∈ RubricParser.benchmarkKeys, JValue.dmem bkvs k = true) ∧
        (JValue.dget vkvs "benchmarks" = none →
          ∀ k ∈ RubricParser.benchmarkKeys,
            JValue.dget bkvs k = some .null)) ∧
      (∀ parr, JValue.dget kvs "phases" = some (.arr parr) →
        ∀ p ∈ parr, ∃ pkvs, p = .obj pkvs ∧
          JValue.dmem pkvs "key_actions" = true ∧
          JValue.dmem pkvs "success_criteria" = true ∧
          JValue.dmem pkvs "common_mistakes" = true ∧
          (∀ ka, JValue.dget pkvs "key_actions" = some (.arr ka) →
            ∀ a ∈ ka, ∃ akvs, a = .obj akvs ∧
              JValue.dmem akvs "importance" = true)) ∧
      (∀ a0kvs a, RubricParser.validateAction (.obj a0kvs) = .ok a →
        JValue.dget a0kvs "importance" = none →
        ∃ akvs, a = .obj akvs ∧
          JValue.dget akvs "importance" = some (.str "important")) := by
  rcases hl : loads (RubricParser.preprocess s) with _ | v
  · have he : RubricParser.parseRubricJson loads now s =
        .error (.valueError "Invalid JSON in LLM response") := by
      simp only [RubricParser.parseRubricJson, hl]
    rw [he] at h
    exact absurd h (by simp)
  · rw [parseRubricJson_loads_some loads now s v hl] at h
    simp only [RubricParser.validateRubric, Bind.bind, Except.bind] at h
    replace h := pybind_ok (by exact h)
    obtain ⟨c, hc, h⟩ := h
    obtain ⟨ckvs, hce, hout⟩ := pySetItem_ok _ _ _ _ h
    subst hce
    subst hout
    obtain ⟨vkvs, ckvs2, hv, he, hreq, hunk, hsix, hph, hbench⟩ :=
      validateCore_post v _ hc
    rw [JValue.obj.injEq] at he
    subst he
    subst hv
    have hner : ∀ f ∈ RubricParser.requiredFields, f ≠ "_meta" := by decide
    refine ⟨JValue.obj vkvs, vkvs,
      JValue.dset ckvs "_meta" (RubricParser.metaObj now),
      rfl, rfl, rfl, ?_, ?_, ?_, ?_, ?_, ?_⟩
    · intro f hf
      rw [JValue.dget_dset_ne _ _ _ _ (hner f hf)]
      exact hreq f hf
    · intro f hf hcond
      rw [JValue.dget_dset_ne _ _ _ _ (hner f hf)]
      exact hunk f hf hcond
    · intro k hk
      exact JValue.dmem_dset _ _ _ _ (hsix k hk)
    · obtain ⟨bkvs, hbg, hbm, hbnull, _⟩ := hbench
      refine ⟨bkvs, ?_, hbm, hbnull⟩
      rw [JValue.dget_dset_ne _ _ _ _ (by decide)]
      exact hbg
    · obtain ⟨pv, pitems, hpg, hpi, hpm, hpa⟩ := hph
      intro parr hparr
      rw [JValue.dget_dset_ne _ _ _ _ (by decide), hpg] at hparr
      injection hparr with hparr
      have hip : pitems = parr := hpa parr hparr
      subst hip
      exact (mapM_validatePhase_post pitems pitems hpm).1
    · intro a0kvs a ha hnone
      exact (validateAction_post _ _ ha).2.2 a0kvs rfl hnone

/-- `json.loads` restricted to the empty JSON object, for the C2
witness. -/
def loadsC2w : String → Option JValue :=
  fun s => if s = "\x7b\x7d" then some (.obj []) else none

/-- The rubric returned by `parse_rubric_json` on the empty JSON object. -/
def c2out : JValue := .obj [("title", .str "unknown"),
  ("difficulty", .str "unknown"), ("archetype", .str "unknown"),
  ("civilizations", .arr []), ("map_types", .arr [.str "any"]),
  ("phases", .arr []), ("decision_points", .arr []), ("counters", .obj []),
  ("key_insights", .arr []),
  ("benchmarks", .obj [("feudal_age", .null), ("castle_age", .null),
    ("imperial_age", .null), ("second_tc", .null), ("third_tc", .null),
    ("villagers_at_10min", .null), ("villagers_at_castle", .null)]),
  ("_meta", RubricParser.metaObj "NOW")]

/-- Witness for C2 at the concrete input `"\x7b\x7d"`. -/
theorem c2_parse_post_witness :
    ∃ v vkvs kvs,
      loadsC2w (RubricParser.preprocess "\x7b\x7d") = some v ∧
      v = .obj vkvs ∧ c2out = .obj kvs ∧
      (∀ f ∈ RubricParser.requiredFields, ∃ val,
        JValue.dget kvs f = some val ∧ JValue.truthy val = true) ∧
      (∀ f ∈ RubricParser.requiredFields,
        (JValue.dget vkvs f = none ∨ JValue.dget vkvs f = some (.str "")) →
        JValue.dget kvs f = some (.str "unknown")) ∧
      (∀ k ∈ sixDefaultKeys, JValue.dmem kvs k = true) ∧
      (∃ bkvs, JValue.dget kvs "benchmarks" = some (.obj bkvs) ∧
        (∀ k ∈ RubricParser.benchmarkKeys, JValue.dmem bkvs k = true) ∧
        (JValue.dget vkvs "benchmarks" = none →
          ∀ k ∈ RubricParser.benchmarkKeys,
            JValue.dget bkvs k = some .null)) ∧
      (∀ parr, JValue.dget kvs "phases" = some (.arr parr) →
        ∀ p ∈ parr, ∃ pkvs, p = .obj pkvs ∧
          JValue.dmem pkvs "key_actions" = true ∧
          JValue.dmem pkvs "success_criteria" = true ∧
          JValue.dmem pkvs "common_mistakes" = true ∧
          (∀ ka, JValue.dget pkvs "key_actions" = some (.arr ka) →
            ∀ a ∈ ka, ∃ akvs, a = .obj akvs ∧
              JValue.dmem akvs "importance" = true)) ∧
      (∀ a0kvs a, RubricParser.validateAction (.obj a0kvs) = .ok a →
        JValue.dget a0kvs "importance" = none →
        ∃ akvs, a = .obj akvs ∧
          JValue.dget akvs "importance" = some (.str "important")) :=
  c2_parse_post loadsC2w "NOW" "\x7b\x7d" c2out rfl

/-! ## C3/C9: chunking bounds -/

theorem pyRfind_spec (s pat : List Char) (a b : Int) (p : Nat)
    (h : Youtube.pyRfind s pat a b = some p) :
    Youtube.clampIdx s.length a ≤ p ∧
    p + pat.length ≤ Youtube.clampIdx s.length b := by
  unfold Youtube.pyRfind at h
  have hm := List.mem_of_mem_getLast? h
  have hp := (List.mem_filter.1 hm).2
  simp only [Bool.and_eq_true, decide_eq_true_eq] at hp
  exact ⟨hp.1.1, hp.1.2⟩

theorem clampIdx_le (len : Nat) (e : Int) (h : 0 ≤ e) :
    (Youtube.clampIdx len e : Int) ≤ e := by
  unfold Youtube.clampIdx
  rw [if_neg (by omega)]
  have h1 : (min e.toNat len : Int) ≤ (e.toNat : Int) := by
    exact_mod_cast Nat.min_le_left e.toNat len
  omega

theorem clampIdx_ge (len : Nat) (e : Int) (h0 : 0 ≤ e) (hl : e ≤ (len : Int)) :
    e ≤ (Youtube.clampIdx len e : Int) := by
  unfold Youtube.clampIdx
  rw [if_neg (by omega)]
  have h1 : e.toNat ≤ len := by omega
  rw [Nat.min_eq_left h1]
  omega

/-- The boundary adjustment never moves the window end past
`start + chunk_size`. -/
theorem adjustEnd_le (s : List Char) (e0 : Int) (h0 : 0 ≤ e0) :
    Youtube.adjustEnd s e0 ≤ e0 := by
  unfold Youtube.adjustEnd
  split
  · rcases hn : Youtube.pyRfind s ['\n'] (e0 - 200) e0 with _ | p
    · rcases hs : Youtube.pyRfind s ['.', ' '] (e0 - 200) e0 with _ | p
      · simp [hn, hs]
      · simp only [hn, hs]
        have h1 := (pyRfind_spec _ _ _ _ _ hs).2
        have h2 := clampIdx_le s.length e0 h0
        simp only [List.length_cons, List.length_nil] at h1
        omega
    · simp only [hn]
      have h1 := (pyRfind_spec _ _ _ _ _ hn).2
      have h2 := clampIdx_le s.length e0 h0
      simp only [List.length_cons, List.length_nil] at h1
      omega
  · omega

/-- With the end inside the transcript and at least 200 characters behind
it, the boundary adjustment moves the end back by at most 199
characters. -/
theorem adjustEnd_ge (s : List Char) (e0 : Int) (h200 : 200 ≤ e0) :
    e0 - 199 ≤ Youtube.adjustEnd s e0 := by
  unfold Youtube.adjustEnd
  split
  case isTrue hlen =>
    have hlo : e0 - 200 ≤ (Youtube.clampIdx s.length (e0 - 200) : Int) :=
      clampIdx_ge s.length (e0 - 200) (by omega) (by omega)
    rcases hn : Youtube.pyRfind s ['\n'] (e0 - 200) e0 with _ | p
    · rcases hs : Youtube.pyRfind s ['.', ' '] (e0 - 200) e0 with _ | p
      · simp [hn, hs]
      · simp only [hn, hs]
        have h1 := (pyRfind_spec _ _ _ _ _ hs).1
        omega
    · simp only [hn]
      have h1 := (pyRfind_spec _ _ _ _ _ hn).1
      omega
  · omega

/-- Sufficient fuel: the loop returns within `len - start + 1`
iterations when `chunk_size ≥ overlap + 200`. -/
theorem chunkLoop_isSome_of_ge (s : List Char) (cs ov : Int)
    (hov : 0 ≤ ov) (hcs : ov + 200 ≤ cs) :
    ∀ (fuel : Nat) (start : Int), 0 ≤ start →
      (s.length : Int) ≤ start + fuel →
      (Youtube.chunkLoop s cs ov (fuel + 1) start).isSome = true := by
  intro fuel
  induction fuel with
  | zero =>
      intro start h0 hle
      unfold Youtube.chunkLoop
      rw [if_neg (by omega)]
      rfl
  | succ fuel ih =>
      intro start h0 hle
      unfold Youtube.chunkLoop
      split
      case isTrue hlt =>
        have hge : start + cs - 199 ≤ Youtube.adjustEnd s (start + cs) :=
          adjustEnd_ge s (start + cs) (by omega)
        have hrec := ih (Youtube.adjustEnd s (start + cs) - ov)
          (by omega) (by omega)
        rcases hr : Youtube.chunkLoop s cs ov (fuel + 1)
            (Youtube.adjustEnd s (start + cs) - ov) with _ | ws
        · rw [hr] at hrec
          exact absurd hrec (by simp)
        · simp only [hr]
          rfl
      case isFalse => rfl

/-- C9: with `chunk_size ≥ overlap + 200` (and a non-negative overlap, as
at every call site) `chunk_transcript` terminates on every transcript —
the loop budget `len + 1` always suffices — because each iteration
advances the window start by at least `chunk_size - overlap - 199`. -/
theorem c9_chunk_termination (cs ov : Int) (hov : 0 ≤ ov)
    (hcs : ov + 200 ≤ cs) :
    (∀ s : String, (Youtube.chunkTranscript s cs ov).isSome = true) ∧
    (∀ (s : List Char) (start : Int), 0 ≤ start →
      start + (cs - ov - 199) ≤ Youtube.adjustEnd s (start + cs) - ov) := by
  constructor
  · intro s
    unfold Youtube.chunkTranscript
    split
    · rfl
    · have h := chunkLoop_isSome_of_ge s.data cs ov hov hcs
        s.data.length 0 (by omega) (by omega)
      rcases hr : Youtube.chunkLoop s.data cs ov (s.data.length + 1) 0
          with _ | ws
      · rw [hr] at h
        exact absurd h (by simp)
      · simp only [hr]
        rfl
  · intro s start h0
    have := adjustEnd_ge s (start + cs) (by omega)
    omega

/-- Witness for C9 at the default extraction parameters. -/
theorem c9_chunk_termination_witness :
    (0:Int) ≤ 500 ∧ (500:Int) + 200 ≤ 4000 ∧
    (Youtube.chunkTranscript "hello" 4000 500).isSome = true :=
  ⟨by decide, by decide,
    (c9_chunk_termination 4000 500 (by decide) (by decide)).1 "hello"⟩

/-- Invariant of the chunking loop: windows span at most `chunk_size`,
each window starts exactly `overlap` before the previous end, the first
window starts at the loop's start, and the windows cover everything from
the start to the end of the transcript. -/
theorem chunkLoop_spec (s : List Char) (cs ov : Int) (hov : 0 ≤ ov)
    (hcs : ov + 200 ≤ cs) :
    ∀ (fuel : Nat) (start : Int) (ws : List (Int × Int)), 0 ≤ start →
      Youtube.chunkLoop s cs ov fuel start = some ws →
      (∀ w ∈ ws, w.2 ≤ w.1 + cs) ∧
      List.Chain' (fun a b => b.1 = a.2 - ov) ws ∧
      (start < (s.length : Int) → ∃ e ws1, ws = (start, e) :: ws1) ∧
      ((s.length : Int) ≤ start → ws = []) ∧
      (∀ i : Nat, start ≤ (i : Int) → (i : Int) < (s.length : Int) →
        ∃ w ∈ ws, w.1 ≤ (i : Int) ∧ (i : Int) < w.2) := by
  intro fuel
  induction fuel with
  | zero =>
      intro start ws h0 h
      simp [Youtube.chunkLoop] at h
  | succ fuel ih =>
      intro start ws h0 h
      unfold Youtube.chunkLoop at h
      split at h
      case isTrue hlt =>
        rcases hr : Youtube.chunkLoop s cs ov fuel
            (Youtube.adjustEnd s (start + cs) - ov) with _ | ws1
        · simp only [hr] at h
          exact absurd h (by simp)
        · simp only [hr, Option.some.injEq] at h
          subst h
          have hge : start + cs - 199 ≤ Youtube.adjustEnd s (start + cs) :=
            adjustEnd_ge s (start + cs) (by omega)
          have hle2 : Youtube.adjustEnd s (start + cs) ≤ start + cs :=
            adjustEnd_le s (start + cs) (by omega)
          obtain ⟨hspan1, hchain1, hhead1, hempty1, hcov1⟩ :=
            ih (Youtube.adjustEnd s (start + cs) - ov) ws1 (by omega) hr
          refine ⟨?_, ?_, ?_, ?_, ?_⟩
          · intro w hw
            rcases List.mem_cons.1 hw with hw | hw
            · subst hw
              exact hle2
            · exact hspan1 w hw
          · rw [List.chain'_cons']
            refine ⟨?_, hchain1⟩
            intro b hb
            rcases hcase : decide
                ((Youtube.adjustEnd s (start + cs) - ov) <
                  (s.length : Int)) with _ | _
            · rw [hempty1 (by simpa using hcase)] at hb
              simp at hb
            · obtain ⟨e1, ws2, hws1⟩ := hhead1 (by simpa using hcase)
              rw [hws1] at hb
              simp only [List.head?_cons, Option.mem_def,
                Option.some.injEq] at hb
              subst hb
              rfl
          · intro _
            exact ⟨_, _, rfl⟩
          · intro hcon
            omega
          · intro i hi hlen
            rcases hcase : decide
                ((i : Int) < Youtube.adjustEnd s (start + cs)) with _ | _
            · have hi2 : Youtube.adjustEnd s (start + cs) - ov ≤ (i : Int) := by
                have := of_decide_eq_false hcase
                omega
              obtain ⟨w, hw, hw1, hw2⟩ := hcov1 i hi2 hlen
              exact ⟨w, List.mem_cons_of_mem _ hw, hw1, hw2⟩
            · exact ⟨(start, Youtube.adjustEnd s (start + cs)),
                List.mem_cons_self _ _, hi, of_decide_eq_true hcase⟩
      case isFalse hge =>
        injection h with h
        subst h
        refine ⟨by simp, List.chain'_nil, ?_, fun _ => rfl, ?_⟩
        · intro hlt
          omega
        · intro i hi hlen
          omega

/-- C3: a transcript of at most `chunk_size` characters is returned as
the one-element list holding it unchanged; a longer transcript (with
terminating parameters: non-negative overlap and
`chunk_size ≥ overlap + 200`, as at every call site) is returned as the
whitespace-stripped slices of a window sequence in which the first
window starts at 0, every window spans at most `chunk_size` characters,
every later window starts exactly `overlap` characters before the
previous window's end, and every transcript position is covered by some
window. -/
theorem c3_chunk_windows (cs ov : Int) (s : String) (hov : 0 ≤ ov)
    (hcs : ov + 200 ≤ cs) :
    ((s.data.length : Int) ≤ cs →
      Youtube.chunkTranscript s cs ov = some [s]) ∧
    (cs < (s.data.length : Int) → ∃ ws,
      Youtube.chunkTranscript s cs ov = some (ws.map (fun w =>
        ⟨RubricParser.pyStripChars (Youtube.pySlice s.data w.1 w.2)⟩)) ∧
      (∃ e ws1, ws = (0, e) :: ws1) ∧
      (∀ w ∈ ws, w.2 ≤ w.1 + cs) ∧
      List.Chain' (fun a b => b.1 = a.2 - ov) ws ∧
      (∀ i : Nat, (i : Int) < (s.data.length : Int) →
        ∃ w ∈ ws, w.1 ≤ (i : Int) ∧ (i : Int) < w.2)) := by
  constructor
  · intro hle
    unfold Youtube.chunkTranscript
    rw [if_pos hle]
  · intro hgt
    have hs := chunkLoop_isSome_of_ge s.data cs ov hov hcs
      s.data.length 0 (by omega) (by omega)
    rcases hr : Youtube.chunkLoop s.data cs ov (s.data.length + 1) 0
        with _ | ws
    · rw [hr] at hs
      exact absurd hs (by simp)
    · obtain ⟨hspan, hchain, hhead, _, hcov⟩ :=
        chunkLoop_spec s.data cs ov hov hcs (s.data.length + 1) 0 ws
          (by omega) hr
      refine ⟨ws, ?_, hhead (by omega), hspan, hchain, ?_⟩
      · unfold Youtube.chunkTranscript
        rw [if_neg (by omega), hr]
      · intro i hlen
        exact hcov i (by omega) hlen

/-- Witness for C3: a two-character transcript fits in one default-sized
chunk. -/
theorem c3_chunk_windows_witness :
    Youtube.chunkTranscript "hi" 4000 500 = some ["hi"] :=
  (c3_chunk_windows 4000 500 "hi" (by decide) (by decide)).1 (by decide)
